import Mathlib

/-!
Verification development for the fb-to-bq repository.

We give a shallow embedding of the components the specification talks about:

* `DataValidator.py` — schema-driven validation (`validate_record`),
  transformation (`transform_for_bigquery`, `_validate_and_convert_action_field`)
  and batch classification (`validate_batch`);
* `BigQueryClient.py` — the single-pass upsert loader
  (`insert_records`, `_insert_records_using_merge`, `_build_merge_query`),
  modelled as a trace-producing computation over an abstract warehouse oracle;
* `SchemaRegistry.py` — the concrete `insights` schema;
* `KPIMappingManager.py` — the mapping cache (`_load_mappings`,
  `get_mapping_for_account`).

Python dictionaries are modelled as association lists (first match wins on
lookup, assignment overwrites the first matching key in place, a new key is
appended — matching CPython dict semantics on duplicate-free key lists).
Python exceptions inside `transform_for_bigquery` are modelled with `Option`
(`none` = an exception was raised and caught, yielding `None`).
Python float objects are modelled abstractly: no claim depends on float
arithmetic, only on whether `float(str(v))` / `int(str(v))` succeed, so a
float value carries just its truthiness (`is the value zero`), and the
CPython facts `float(str(f))` always succeeds and `int(str(f))` always fails
(the `str` of a float always contains `.`, an exponent, `inf` or `nan`) are
built into the per-constructor parse clauses.
-/

namespace FbToBq

/-! ## Association lists (Python dict model) -/

/-- Lookup in a Python-dict-as-association-list: first matching key wins. -/
def assocGet {β : Type} : List (String × β) → String → Option β
  | [], _ => none
  | (k, v) :: rest, key => if k = key then some v else assocGet rest key

/-- Assignment `d[key] = v` on a Python dict: overwrite the first matching
key in place, append if the key is absent. -/
def assocSet {β : Type} : List (String × β) → String → β → List (String × β)
  | [], key, v => [(key, v)]
  | (k, w) :: rest, key, v =>
    if k = key then (k, v) :: rest else (k, w) :: assocSet rest key v

theorem assocGet_set_self {β : Type} (m : List (String × β)) (k : String) (v : β) :
    assocGet (assocSet m k v) k = some v := by
  induction m with
  | nil => simp [assocSet, assocGet]
  | cons p rest ih =>
    obtain ⟨k', w⟩ := p
    by_cases h : k' = k <;> simp [assocSet, assocGet, h, ih]

theorem assocGet_set_ne {β : Type} (m : List (String × β)) (k k' : String) (v : β)
    (h : k' ≠ k) : assocGet (assocSet m k v) k' = assocGet m k' := by
  have h' : ¬(k = k') := fun hh => h hh.symm
  induction m with
  | nil => simp [assocSet, assocGet, h']
  | cons p rest ih =>
    obtain ⟨k₀, w⟩ := p
    by_cases h0 : k₀ = k
    · subst h0
      simp [assocSet, assocGet, h']
    · by_cases h1 : k₀ = k' <;> simp [assocSet, assocGet, h0, h1, h, h', ih]

/-- Keys with pairwise-distinct names determine their payload uniquely. -/
theorem assoc_mem_unique {β : Type} {l : List (String × β)} {k : String} {a b : β}
    (hnd : (l.map Prod.fst).Nodup) (ha : (k, a) ∈ l) (hb : (k, b) ∈ l) : a = b := by
  induction l with
  | nil => cases ha
  | cons p rest ih =>
    simp only [List.map_cons, List.nodup_cons] at hnd
    rcases List.mem_cons.1 ha with h1 | h1 <;> rcases List.mem_cons.1 hb with h2 | h2
    · rw [← h1] at h2
      exact (congrArg Prod.snd h2).symm
    · exfalso
      apply hnd.1
      have : Prod.fst (k, b) ∈ rest.map Prod.fst := List.mem_map_of_mem Prod.fst h2
      simpa [← h1] using this
    · exfalso
      apply hnd.1
      have : Prod.fst (k, a) ∈ rest.map Prod.fst := List.mem_map_of_mem Prod.fst h1
      simpa [← h2] using this
    · exact ih hnd.2 h1 h2

/-- Concatenating map, defined by hand so every proof can unfold it. -/
def concatMapL {α β : Type} (f : α → List β) : List α → List β
  | [] => []
  | a :: l => f a ++ concatMapL f l

theorem concatMapL_eq_nil {α β : Type} (f : α → List β) (l : List α)
    (h : ∀ a ∈ l, f a = []) : concatMapL f l = [] := by
  induction l with
  | nil => rfl
  | cons a l ih =>
    simp [concatMapL, h a (List.mem_cons_self a l), ih fun b hb => h b (List.mem_cons_of_mem a hb)]

/-- Monadic map over `Option`, mirroring a Python loop that appends converted
elements and raises on the first failure. -/
def mapOptM {α β : Type} (f : α → Option β) : List α → Option (List β)
  | [] => some []
  | a :: l =>
    match f a with
    | none => none
    | some b =>
      match mapOptM f l with
      | none => none
      | some bl => some (b :: bl)

theorem mapOptM_none_of_mem {α β : Type} (f : α → Option β) {l : List α} {a : α}
    (ha : a ∈ l) (hf : f a = none) : mapOptM f l = none := by
  induction l with
  | nil => cases ha
  | cons b l ih =>
    rcases List.mem_cons.1 ha with h | h
    · subst h; simp [mapOptM, hf]
    · cases hb : f b <;> simp [mapOptM, hb, ih h]

theorem mapOptM_mem_of_some {α β : Type} (f : α → Option β) {l : List α} {out : List β}
    (h : mapOptM f l = some out) : ∀ b ∈ out, ∃ a ∈ l, f a = some b := by
  induction l generalizing out with
  | nil =>
    simp [mapOptM] at h
    subst h; intro b hb; cases hb
  | cons a l ih =>
    intro b hb
    cases hfa : f a with
    | none => simp [mapOptM, hfa] at h
    | some c =>
      cases hml : mapOptM f l with
      | none => simp [mapOptM, hfa, hml] at h
      | some cl =>
        simp [mapOptM, hfa, hml] at h
        subst h
        rcases List.mem_cons.1 hb with h | h
        · exact ⟨a, List.mem_cons_self a l, h ▸ hfa⟩
        · obtain ⟨a', ha', hfa'⟩ := ih hml b h
          exact ⟨a', List.mem_cons_of_mem a ha', hfa'⟩

/-! ## Character-level parsers for CPython scalar conversions

`int(s)`, `float(s)` and `datetime.strptime(s,
"%Y-%m-%d")` are modelled on the ASCII subset the repository feeds them
(optional surrounding spaces, optional sign, decimal digits; CPython
additionally accepts unicode digits and underscores between digits, which no
record in this pipeline and no claim exercises). -/

def isSpaceChar (c : Char) : Bool :=
  c = ' ' || c = '\t' || c = '\n' || c = '\r'

def stripChars (cs : List Char) : List Char :=
  ((cs.dropWhile isSpaceChar).reverse.dropWhile isSpaceChar).reverse

def allDigits (cs : List Char) : Bool :=
  cs.all fun c => c.isDigit

def digitsToNat (cs : List Char) : Nat :=
  cs.foldl (fun acc c => acc * 10 + (c.toNat - '0'.toNat)) 0

/-- Split off an optional leading `+`/`-`; returns (negative?, rest). -/
def splitSign : List Char → Bool × List Char
  | '+' :: rest => (false, rest)
  | '-' :: rest => (true, rest)
  | cs => (false, cs)

/-- CPython `int(s)` for a string argument (ASCII subset): optional
whitespace, optional sign, one or more decimal digits. `int("12.0")` fails. -/
def parseIntStr (s : String) : Option Int :=
  let cs := stripChars s.data
  let (neg, body) := splitSign cs
  if body ≠ [] && allDigits body then
    some (if neg then -(digitsToNat body : Int) else (digitsToNat body : Int))
  else none

/-- Split a character list on a separator character. -/
def splitOnChar (sep : Char) (cs : List Char) : List (List Char) :=
  match cs with
  | [] => [[]]
  | c :: rest =>
    let r := splitOnChar sep rest
    if c = sep then [] :: r
    else
      match r with
      | [] => [[c]]
      | h :: t => (c :: h) :: t

/-- CPython `float(s)` for a string argument, returning only what the claims
consume: `some isZero` on success (`isZero` = the parsed value is zero,
which is all that Python truthiness of the result can observe), `none` on
`ValueError`. Grammar (ASCII subset): optional whitespace and sign, then
`inf`/`infinity`/`nan` (case-insensitive) or a decimal mantissa with at
least one digit and an optional `e`/`E` exponent. -/
def parseFloatStr (s : String) : Option Bool :=
  let cs := (stripChars s.data).map Char.toLower
  let (_, body) := splitSign cs
  if body = "inf".data || body = "infinity".data || body = "nan".data then
    some false
  else
    let (mant, expOk) :=
      match splitOnChar 'e' body with
      | [m] => (m, true)
      | [m, ex] =>
        let (_, exBody) := splitSign ex
        (m, exBody ≠ [] && allDigits exBody)
      | _ => ([], false)
    if expOk then
      match splitOnChar '.' mant with
      | [a] =>
        if a ≠ [] && allDigits a then some (a.all fun c => c = '0') else none
      | [a, b] =>
        if (a ≠ [] || b ≠ []) && allDigits a && allDigits b then
          some ((a ++ b).all fun c => c = '0')
        else none
      | _ => none
    else none

/-- Number of days in a month, with the Gregorian leap-year rule, as
`datetime.date` enforces. -/
def daysInMonth (year month : Nat) : Nat :=
  if month = 2 then
    if year % 4 = 0 && (year % 100 ≠ 0 || year % 400 = 0) then 29 else 28
  else if month = 4 || month = 6 || month = 9 || month = 11 then 30
  else 31

/-- CPython `datetime.datetime.strptime(s, "%Y-%m-%d")` success: `%Y`
matches exactly four digits, `%m`/`%d` one or two digits, and the resulting
calendar date must be valid (year at least 1, month 1–12, day within the
month). The whole string must be consumed. -/
def dateOkStr (s : String) : Bool :=
  match splitOnChar '-' s.data with
  | [y, m, d] =>
    y.length = 4 && allDigits y &&
    (m.length = 1 || m.length = 2) && allDigits m &&
    (d.length = 1 || d.length = 2) && allDigits d &&
    1 ≤ digitsToNat y &&
    1 ≤ digitsToNat m && digitsToNat m ≤ 12 &&
    1 ≤ digitsToNat d && digitsToNat d ≤ daysInMonth (digitsToNat y) (digitsToNat m)
  | _ => false

/-! ## Python values

`PyVal` covers the shapes that flow through the validator/transformer:
strings, ints, floats, `None`, lists, and string-keyed dicts. A float value
carries only its truthiness bit `isZero` (see the header comment). -/

inductive PyVal : Type where
  | pstr (s : String)
  | pint (n : Int)
  | pfloat (isZero : Bool)
  | pnone
  | plist (items : List PyVal)
  | pdict (entries : List (String × PyVal))

open PyVal

/-- Python `v is None`. -/
def isNone : PyVal → Bool
  | pnone => true
  | _ => false

/-- CPython truthiness (`bool(v)`). -/
def pyTruthy : PyVal → Bool
  | pstr s => s ≠ ""
  | pint n => n ≠ 0
  | pfloat isZero => !isZero
  | pnone => false
  | plist items => !items.isEmpty
  | pdict entries => !entries.isEmpty

/-- Abbreviated type name used in issue messages (Python prints
`<class ...>`; the claims never inspect these strings). -/
def pyTypeName : PyVal → String
  | pstr _ => "str"
  | pint _ => "int"
  | pfloat _ => "float"
  | pnone => "NoneType"
  | plist _ => "list"
  | pdict _ => "dict"

/-- CPython `str(v)`, approximated where no claim depends on the exact text:
the rendering of a float and the element-level quoting inside
lists/dicts are abbreviated (those strings only ever feed log messages). -/
def pyToString : PyVal → String
  | pstr s => s
  | pint n => toString n
  | pfloat _ => "<float>"
  | pnone => "None"
  | plist items => "[" ++ String.intercalate ", " (items.map pyToStringList) ++ "]"
  | pdict entries =>
    "\x7b" ++ String.intercalate ", " (entries.map fun e => e.1 ++ ": " ++ pyToStringList e.2) ++ "\x7d"
where
  pyToStringList : PyVal → String
  | pstr s => s
  | pint n => toString n
  | pfloat _ => "<float>"
  | pnone => "None"
  | plist _ => "[...]"
  | pdict _ => "\x7b...\x7d"

/-- CPython `int(str(v))` per value shape. A float never passes: `str` of a
float always contains a decimal point, an exponent, `inf` or `nan`, so
`int("12.0")`-style calls raise `ValueError`. `str` of a list/dict starts
with a bracket and never parses. -/
def pyIntOfStr : PyVal → Option Int
  | pstr s => parseIntStr s
  | pint n => some n
  | pfloat _ => none
  | pnone => none
  | plist _ => none
  | pdict _ => none

/-- CPython `float(str(v))` per value shape, returning `some isZero` on
success. `float(str(f))` succeeds for every float `f` and preserves its
value; `float(str(n))` succeeds for every int `n`. -/
def pyFloatOfStr : PyVal → Option Bool
  | pstr s => parseFloatStr s
  | pint n => some (n = 0)
  | pfloat isZero => some isZero
  | pnone => none
  | plist _ => none
  | pdict _ => none

/-- CPython `datetime.strptime(str(v), "%Y-%m-%d")` success per value shape:
only strings can match (ints render without dashes in the `%Y-%m-%d`
positions, floats always carry `.`/exponent text, `None`/lists/dicts never
match the pattern). -/
def pyDateOk : PyVal → Bool
  | pstr s => dateOkStr s
  | _ => false

/-! ## DataValidator: schema model (`SchemaRegistry.get_schema_dict`) -/

/-- Semantic type of a schema field: `float`, `int`, the string `"date"`, or
`str`, exactly the four values `FieldSchema.type` takes in `SchemaRegistry`. -/
inductive FType : Type where
  | ffloat
  | fint
  | fdate
  | fstr
deriving DecidableEq

/-- One schema entry, the fields of the dict produced by
`FieldSchema.to_dict` that the validator reads (`description` and
`default_value` are never consulted). -/
structure FieldInfo : Type where
  type : FType
  nullable : Bool := true
  nested : Bool := false
deriving DecidableEq

/-- A schema as handed to `DataValidator.__init__`: an insertion-ordered
dict of field name to field info. -/
abbrev Schema : Type := List (String × FieldInfo)

/-- A record: an insertion-ordered Python dict of field name to value. -/
abbrev Record : Type := List (String × PyVal)

/-- `DataValidator._build_field_lists`: float-typed non-nested field names. -/
def float_fields (s : Schema) : List String :=
  (s.filter fun fi => fi.2.type = FType.ffloat && !fi.2.nested).map Prod.fst

/-- `DataValidator._build_field_lists`: int-typed non-nested field names. -/
def int_fields (s : Schema) : List String :=
  (s.filter fun fi => fi.2.type = FType.fint && !fi.2.nested).map Prod.fst

/-- `DataValidator._build_field_lists`: date-typed non-nested field names. -/
def date_fields (s : Schema) : List String :=
  (s.filter fun fi => fi.2.type = FType.fdate && !fi.2.nested).map Prod.fst

/-- `DataValidator._build_field_lists`: the nested (repeated-group) entries,
kept with their field info. -/
def action_fields (s : Schema) : Schema :=
  s.filter fun fi => fi.2.nested

/-! ## DataValidator.validate_record -/

/-- Message fragment for the scalar type name
(`info.type.__name__ if hasattr(...) else info.type`). -/
def ftypeName : FType → String
  | FType.ffloat => "float"
  | FType.fint => "int"
  | FType.fdate => "date"
  | FType.fstr => "str"

/-- Issues for one scalar (non-nested) field that is present and non-null:
the `try` block of `validate_record`. A `str`-typed field is never
checked. -/
def scalarIssues (f : String) (info : FieldInfo) (v : PyVal) : List String :=
  let tname := ftypeName info.type
  let vs := pyToString v
  match info.type with
  | FType.ffloat =>
    match pyFloatOfStr v with
    | some _ => []
    | none => [s!"Invalid {tname} value in {f}: {vs}"]
  | FType.fint =>
    match pyIntOfStr v with
    | some _ => []
    | none => [s!"Invalid {tname} value in {f}: {vs}"]
  | FType.fdate =>
    if pyDateOk v then [] else [s!"Invalid {tname} value in {f}: {vs}"]
  | FType.fstr => []

/-- Issues for one element of a repeated-group field: it must be a dict
holding both an `action_type` and a `value` key. -/
def actionItemIssues (f : String) (idx : Nat) (x : PyVal) : List String :=
  match x with
  | pdict entries =>
    if (assocGet entries "action_type").isSome && (assocGet entries "value").isSome then []
    else
      let xs := pyToString x
      [s!"Item {idx} in {f} missing required keys: {xs}"]
  | _ =>
    let ts := pyTypeName x
    [s!"Item {idx} in {f} is not a dictionary: {ts}"]

def actionItemsIssues (f : String) (idx : Nat) : List PyVal → List String
  | [] => []
  | x :: xs => actionItemIssues f idx x ++ actionItemsIssues f (idx + 1) xs

/-- Issues for one repeated-group field that is present and truthy. -/
def actionFieldIssues (f : String) (v : PyVal) : List String :=
  match v with
  | plist items => actionItemsIssues f 0 items
  | _ =>
    let ts := pyTypeName v
    [s!"{f} is not a list: {ts}"]

/-- The issue list collected by `DataValidator.validate_record`: scalar
fields first (in schema order, skipping nested entries, absent fields and
`None` values), then the nested action fields (present and truthy only). -/
def validateIssues (s : Schema) (r : Record) : List String :=
  (concatMapL
    (fun fi =>
      if fi.2.nested then []
      else
        match assocGet r fi.1 with
        | none => []
        | some v => if isNone v then [] else scalarIssues fi.1 fi.2 v)
    s)
  ++ concatMapL
    (fun fi =>
      match assocGet r fi.1 with
      | none => []
      | some v => if pyTruthy v then actionFieldIssues fi.1 v else [])
    (action_fields s)

/-- `DataValidator.validate_record`: returns `(len(issues) == 0, issues)`. -/
def validate_record (s : Schema) (r : Record) : Bool × List String :=
  let issues := validateIssues s r
  (issues.isEmpty, issues)

/-! ## DataValidator.transform_for_bigquery

The Python function wraps everything in `try ... except: return None`;
every raised exception is therefore modelled as `none` propagating out. -/

/-- `target_type(str(value))` for the action-element value, where
`target_type` is `field_info['type']`. `str` always succeeds, the string
`"date"` is not callable (a `TypeError`, caught and re-raised as
`ValueError` by the element loop, i.e. `none`). -/
def convertByType : FType → PyVal → Option PyVal
  | FType.fint, v => (pyIntOfStr v).map pint
  | FType.ffloat, v => (pyFloatOfStr v).map pfloat
  | FType.fstr, v => some (pstr (pyToString v))
  | FType.fdate, _ => none

/-- One element of `_validate_and_convert_action_field`: must be a dict
with both keys; a `None` value is kept when the field is nullable,
otherwise the value goes through the type constructor; `action_type` is
coerced with `str`. `none` = the loop raised. -/
def convertActionItem (info : FieldInfo) (x : PyVal) : Option PyVal :=
  match x with
  | pdict entries =>
    match assocGet entries "action_type", assocGet entries "value" with
    | some at0, some value =>
      let conv : Option PyVal :=
        if isNone value && info.nullable then some pnone
        else convertByType info.type value
      conv.map fun cv => pdict [("action_type", pstr (pyToString at0)), ("value", cv)]
    | _, _ => none
  | _ => none

/-- `DataValidator._validate_and_convert_action_field`: a falsy value
(empty list, `None`, ...) is silently normalized to `None`; a truthy
non-list raises; otherwise every element is converted in order and any
element failure aborts. -/
def validate_and_convert_action_field (_fname : String) (actions : PyVal)
    (info : FieldInfo) : Option PyVal :=
  if !pyTruthy actions then some pnone
  else
    match actions with
    | plist items => (mapOptM (convertActionItem info) items).map plist
    | _ => none

/-- The action-field loop of `transform_for_bigquery`: every nested field
present in the record (regardless of nullness) is replaced by its
converted form. -/
def actionPass : Schema → Record → Option Record
  | [], r => some r
  | fi :: fs, r =>
    match assocGet r fi.1 with
    | none => actionPass fs r
    | some v =>
      match validate_and_convert_action_field fi.1 v fi.2 with
      | none => none
      | some w => actionPass fs (assocSet r fi.1 w)

/-- One scalar conversion loop of `transform_for_bigquery` (float, int or
date pass): fields absent or `None` are skipped, otherwise the converted
value replaces the old one and a conversion failure aborts the record. -/
def scalarPass (conv : PyVal → Option PyVal) : List String → Record → Option Record
  | [], r => some r
  | f :: fs, r =>
    match assocGet r f with
    | none => scalarPass conv fs r
    | some v =>
      if isNone v then scalarPass conv fs r
      else
        match conv v with
        | none => none
        | some w => scalarPass conv fs (assocSet r f w)

/-- Float-field conversion `prepared[field] = float(str(prepared[field]))`. -/
def floatConv (v : PyVal) : Option PyVal := (pyFloatOfStr v).map pfloat

/-- Int-field conversion `prepared[field] = int(str(prepared[field]))`. -/
def intConv (v : PyVal) : Option PyVal := (pyIntOfStr v).map pint

/-- Date-field check-and-normalize: `strptime(str(v), "%Y-%m-%d")` must
succeed, then `prepared[field] = str(prepared[field])`. -/
def dateConv (v : PyVal) : Option PyVal :=
  if pyDateOk v then some (pstr (pyToString v)) else none

/-- `DataValidator.transform_for_bigquery`: action fields first, then
float, int and date fields; any raised exception yields `None`
(propagating `none` through the pass chain). -/
def transform_for_bigquery (s : Schema) (r : Record) : Option Record :=
  (actionPass (action_fields s) r).bind fun r1 =>
    (scalarPass floatConv (float_fields s) r1).bind fun r2 =>
      (scalarPass intConv (int_fields s) r2).bind fun r3 =>
        scalarPass dateConv (date_fields s) r3

/-! ## DataValidator.validate_batch -/

/-- One entry of the `invalid` list: the original record and its issues. -/
structure BatchEntry : Type where
  record : Record
  issues : List String

/-- The dict returned by `validate_batch`. -/
structure BatchResult : Type where
  valid : List Record
  invalid : List BatchEntry

/-- `DataValidator.validate_batch(records, stop_on_first_error)`: validate
then transform each record in order. A record that validates but whose
transform comes back falsy (`None`, or an empty dict) is reclassified as
invalid with the single issue `"Transformation failed"`; only a record
that fails validation triggers the `stop_on_first_error` break. -/
def validate_batch (s : Schema) (stop_on_first_error : Bool) : List Record → BatchResult
  | [] => ⟨[], []⟩
  | r :: rs =>
    let res := validate_record s r
    if res.1 then
      match transform_for_bigquery s r with
      | some t =>
        if t.isEmpty then
          let rest := validate_batch s stop_on_first_error rs
          ⟨rest.valid, ⟨r, ["Transformation failed"]⟩ :: rest.invalid⟩
        else
          let rest := validate_batch s stop_on_first_error rs
          ⟨t :: rest.valid, rest.invalid⟩
      | none =>
        let rest := validate_batch s stop_on_first_error rs
        ⟨rest.valid, ⟨r, ["Transformation failed"]⟩ :: rest.invalid⟩
    else
      if stop_on_first_error then ⟨[], [⟨r, res.2⟩]⟩
      else
        let rest := validate_batch s stop_on_first_error rs
        ⟨rest.valid, ⟨r, res.2⟩ :: rest.invalid⟩

/-! ## SchemaRegistry: the `insights` schema

Field order is CPython dict insertion order of
`SchemaRegistry.INSIGHTS_SCHEMA`; every `FieldSchema` there leaves
`nullable=True`, and the nested action fields carry their element type. -/

def insightsSchema : Schema :=
  [ ("spend", ⟨FType.ffloat, true, false⟩),
    ("cpc", ⟨FType.ffloat, true, false⟩),
    ("cpm", ⟨FType.ffloat, true, false⟩),
    ("cpp", ⟨FType.ffloat, true, false⟩),
    ("ctr", ⟨FType.ffloat, true, false⟩),
    ("frequency", ⟨FType.ffloat, true, false⟩),
    ("unique_ctr", ⟨FType.ffloat, true, false⟩),
    ("cost_per_unique_click", ⟨FType.ffloat, true, false⟩),
    ("inline_link_click_ctr", ⟨FType.ffloat, true, false⟩),
    ("impressions", ⟨FType.fint, true, false⟩),
    ("reach", ⟨FType.fint, true, false⟩),
    ("clicks", ⟨FType.fint, true, false⟩),
    ("unique_clicks", ⟨FType.fint, true, false⟩),
    ("inline_link_clicks", ⟨FType.fint, true, false⟩),
    ("date_start", ⟨FType.fdate, true, false⟩),
    ("date_stop", ⟨FType.fdate, true, false⟩),
    ("account_id", ⟨FType.fstr, true, false⟩),
    ("account_name", ⟨FType.fstr, true, false⟩),
    ("account_currency", ⟨FType.fstr, true, false⟩),
    ("ad_id", ⟨FType.fstr, true, false⟩),
    ("ad_name", ⟨FType.fstr, true, false⟩),
    ("adset_id", ⟨FType.fstr, true, false⟩),
    ("adset_name", ⟨FType.fstr, true, false⟩),
    ("campaign_id", ⟨FType.fstr, true, false⟩),
    ("campaign_name", ⟨FType.fstr, true, false⟩),
    ("quality_ranking", ⟨FType.fstr, true, false⟩),
    ("engagement_rate_ranking", ⟨FType.fstr, true, false⟩),
    ("conversion_rate_ranking", ⟨FType.fstr, true, false⟩),
    ("objective", ⟨FType.fstr, true, false⟩),
    ("optimization_goal", ⟨FType.fstr, true, false⟩),
    ("website_ctr", ⟨FType.ffloat, true, true⟩),
    ("actions", ⟨FType.fint, true, true⟩),
    ("unique_actions", ⟨FType.fint, true, true⟩),
    ("cost_per_action_type", ⟨FType.ffloat, true, true⟩),
    ("cost_per_unique_action_type", ⟨FType.ffloat, true, true⟩),
    ("video_play_actions", ⟨FType.fint, true, true⟩),
    ("video_avg_time_watched_actions", ⟨FType.fint, true, true⟩),
    ("video_p100_watched_actions", ⟨FType.fint, true, true⟩),
    ("video_p25_watched_actions", ⟨FType.fint, true, true⟩),
    ("video_p50_watched_actions", ⟨FType.fint, true, true⟩),
    ("video_p75_watched_actions", ⟨FType.fint, true, true⟩),
    ("video_thruplay_watched_actions", ⟨FType.fint, true, true⟩) ]

/-! ## BigQueryClient._build_merge_query -/

/-- `list(SchemaRegistry.get_schema("insights").keys())`. -/
def insightsFieldNames : List String := insightsSchema.map Prod.fst

/-- The key-field set `\x7b"account_id", "ad_id", "date_start"\x7d` that must
not be updated. -/
def mergeKeyFields : List String := ["account_id", "ad_id", "date_start"]

/-- `update_fields`: every schema field that is not a key field, in schema
order. -/
def mergeUpdateFields : List String :=
  insightsFieldNames.filter fun f => !mergeKeyFields.contains f

/-- `all_fields`: the INSERT column list, keys first then update fields. -/
def mergeInsertFields : List String := mergeKeyFields ++ mergeUpdateFields

/-- The fields equated between target `T` and staging `S` in the `ON`
clause of the merge statement, in the order they appear in the SQL text. -/
def mergeOnFields : List String := ["ad_id", "date_start", "account_id"]

/-- `BigQueryClient._build_merge_query`: the assembled MERGE statement
(whitespace slightly flattened; the clause structure and every identifier
match the Python f-string). -/
def build_merge_query (projectId datasetId tableId tempTableId : String) : String :=
  let updateClause := String.intercalate ",\n        " (mergeUpdateFields.map fun f => s!"{f} = S.{f}")
  let insertColumns := String.intercalate ", " mergeInsertFields
  let insertValues := String.intercalate ", " (mergeInsertFields.map fun f => s!"S.{f}")
  "MERGE `" ++ projectId ++ "." ++ datasetId ++ "." ++ tableId ++ "` T\n" ++
  "USING `" ++ projectId ++ "." ++ datasetId ++ "." ++ tempTableId ++ "` S\n" ++
  "ON T.ad_id = S.ad_id\n   AND T.date_start = S.date_start\n   AND T.account_id = S.account_id\n" ++
  "WHEN MATCHED THEN\n    UPDATE SET\n        " ++ updateClause ++ "\n" ++
  "WHEN NOT MATCHED THEN\n    INSERT (" ++ insertColumns ++ ")\n    VALUES (" ++ insertValues ++ ")"

/-! ## BigQueryClient: trace semantics of the upsert loader

The five warehouse primitives the loader uses (get table, create table,
chunked load with a write mode, run query, delete table) are abstracted as
an oracle mapping each call to its outcome (`Except` an error message).
Running the loader yields the ordered trace of warehouse operations it
attempted plus its result; requests are appended to the trace whether or
not they succeed, so the trace is exactly the warehouse-visible behaviour.
`ρ` is the (opaque) record payload type, `σ` the (opaque) table-schema
type returned by get-table. -/

/-- The write disposition of a load job. -/
inductive WriteMode : Type where
  | truncate
  | append
deriving DecidableEq

/-- One warehouse operation issued by the loader. -/
inductive Op (ρ σ : Type) : Type where
  | getTable (ref : String)
  | createTable (ref : String) (schema : σ)
  | load (dest : String) (batch : List ρ) (mode : WriteMode)
  | query (sql : String)
  | deleteTable (ref : String)

/-- Outcomes of the warehouse primitives. `runQuery` returns
`num_dml_affected_rows`. -/
structure Oracle (ρ σ : Type) : Type where
  getTable : String → Except String σ
  createTable : String → σ → Except String Unit
  load : String → List ρ → WriteMode → Except String Unit
  runQuery : String → Except String Nat
  deleteTable : String → Except String Unit

/-- A loader computation: threads the operation trace, may end in an
uncaught exception. -/
def LoaderM (ρ σ α : Type) : Type := List (Op ρ σ) → List (Op ρ σ) × Except String α

def pureL {ρ σ α : Type} (a : α) : LoaderM ρ σ α := fun tr => (tr, Except.ok a)

def bindL {ρ σ α β : Type} (m : LoaderM ρ σ α) (f : α → LoaderM ρ σ β) : LoaderM ρ σ β :=
  fun tr =>
    match m tr with
    | (tr', Except.ok a) => f a tr'
    | (tr', Except.error e) => (tr', Except.error e)

def throwL {ρ σ α : Type} (e : String) : LoaderM ρ σ α := fun tr => (tr, Except.error e)

/-- Python `try ... except`: on failure the handler continues from the
trace accumulated so far. -/
def tryCatchL {ρ σ α : Type} (m : LoaderM ρ σ α) (h : String → LoaderM ρ σ α) :
    LoaderM ρ σ α :=
  fun tr =>
    match m tr with
    | (tr', Except.ok a) => (tr', Except.ok a)
    | (tr', Except.error e) => h e tr'

/-- Issue one warehouse call: record it in the trace, return its outcome
(raising on error). -/
def callOp {ρ σ α : Type} (op : Op ρ σ) (outcome : Except String α) : LoaderM ρ σ α :=
  fun tr => (tr ++ [op], outcome)

/-- `records[i:i + batch_size] for i in range(0, len(records), batch_size)`. -/
def chunksOf {α : Type} (bs : Nat) (l : List α) : List (List α) :=
  if bs = 0 then []
  else if l.isEmpty then []
  else l.take bs :: chunksOf bs (l.drop bs)
termination_by l.length
decreasing_by
  rename_i hbs hl
  simp only [List.length_drop]
  have h1 : 0 < l.length := by
    cases l with
    | nil => simp [List.isEmpty] at hl
    | cons a t => simp
  exact Nat.sub_lt h1 (Nat.pos_of_ne_zero hbs)

/-- Fully qualified table reference `project.dataset.table`. -/
def tableRef (projectId datasetId tableId : String) : String :=
  projectId ++ "." ++ datasetId ++ "." ++ tableId

/-- `temp_table_id = f"\x7btable_id\x7d_temp_\x7btimestamp\x7d"`; the
timestamp produced by `datetime.now()` is passed in as a parameter. -/
def tempTableIdOf (tableId timestamp : String) : String :=
  tableId ++ "_temp_" ++ timestamp

/-- The result dict of `insert_records` / `_insert_records_using_merge`:
`rows_affected` is present only on the merge path. -/
structure UpsertResult : Type where
  processed : Nat
  rows_affected : Option Nat
  status : String
deriving DecidableEq

/-- The chunked load loop of `_insert_records_using_merge`: the job config
starts as truncate and is flipped to append after the first chunk. -/
def loadChunks {ρ σ : Type} (o : Oracle ρ σ) (dest : String) (mode : WriteMode) :
    List (List ρ) → LoaderM ρ σ Unit
  | [] => pureL ()
  | c :: cs =>
    bindL (callOp (Op.load dest c mode) (o.load dest c mode)) fun _ =>
      loadChunks o dest WriteMode.append cs

/-- The `try` body of `_insert_records_using_merge`: fetch the target
schema, create the uniquely named staging table with that schema, load all
records in chunks, run the single MERGE, read the affected-row count, drop
the staging table, and report success. -/
def merge_body {ρ σ : Type} (o : Oracle ρ σ)
    (projectId datasetId tableId timestamp : String)
    (records : List ρ) (batchSize : Nat) : LoaderM ρ σ UpsertResult :=
  let tempTableId := tempTableIdOf tableId timestamp
  let tempRef := tableRef projectId datasetId tempTableId
  let targetRef := tableRef projectId datasetId tableId
  let mergeSql := build_merge_query projectId datasetId tableId tempTableId
  bindL (callOp (Op.getTable targetRef) (o.getTable targetRef)) fun sch =>
  bindL (callOp (Op.createTable tempRef sch) (o.createTable tempRef sch)) fun _ =>
  bindL (loadChunks o tempRef WriteMode.truncate (chunksOf batchSize records)) fun _ =>
  bindL (callOp (Op.query mergeSql) (o.runQuery mergeSql)) fun numRows =>
  bindL (callOp (Op.deleteTable tempRef) (o.deleteTable tempRef)) fun _ =>
  pureL ⟨records.length, some numRows, "success"⟩

/-- `BigQueryClient._insert_records_using_merge`: the body above wrapped in
`try/except` — on any failure, attempt to drop the staging table, swallow
that drop's own failure, and re-raise the original error. -/
def insert_records_using_merge {ρ σ : Type} (o : Oracle ρ σ)
    (projectId datasetId tableId timestamp : String)
    (records : List ρ) (batchSize : Nat) : LoaderM ρ σ UpsertResult :=
  let tempRef := tableRef projectId datasetId (tempTableIdOf tableId timestamp)
  tryCatchL (merge_body o projectId datasetId tableId timestamp records batchSize)
    fun e =>
      bindL
        (tryCatchL (callOp (Op.deleteTable tempRef) (o.deleteTable tempRef))
          fun _ => pureL ())
        fun _ => throwL e

/-- Python `pattern in s` for strings. -/
def strContains (s pattern : String) : Bool :=
  (s.splitOn pattern).length ≠ 1

/-- Modelled from the spec: `SchemaRegistry.to_bigquery_schema` (called by
`ensure_meta_ads_table_exists`) is not present under `src/`, so the
BigQuery-format insights schema it would return is taken as the parameter
`regSchema`. Per the spec, a missing insights-class target table is created
from the registry shape, idempotently: an existing table is left untouched,
and `create_table_if_not_exists` reports `False` (rather than raising) when
creation fails. -/
def ensure_meta_ads_table_exists {ρ σ : Type} (o : Oracle ρ σ) (targetRef : String)
    (regSchema : σ) : LoaderM ρ σ Bool :=
  tryCatchL
    (bindL (callOp (Op.getTable targetRef) (o.getTable targetRef)) fun _ => pureL true)
    fun _ =>
      tryCatchL
        (bindL (callOp (Op.createTable targetRef regSchema) (o.createTable targetRef regSchema))
          fun _ => pureL true)
        fun _ => pureL false

/-- `BigQueryClient.insert_records`: an empty record list short-circuits to
`\x7b"processed": 0, "status": "no_records"\x7d` before any warehouse
traffic; a `meta_ads` table is first ensured to exist (raising when that
fails); then the single-pass merge loader runs. -/
def insert_records {ρ σ : Type} (o : Oracle ρ σ)
    (projectId datasetId tableId timestamp : String) (regSchema : σ)
    (records : List ρ) (batchSize : Nat) : LoaderM ρ σ UpsertResult :=
  match records with
  | [] => pureL ⟨0, none, "no_records"⟩
  | _ =>
    bindL
      (if strContains tableId "meta_ads" then
        bindL (ensure_meta_ads_table_exists o (tableRef projectId datasetId tableId) regSchema)
          fun ok =>
            if ok then pureL ()
            else throwL s!"Failed to ensure table {datasetId}.{tableId} exists"
      else pureL ())
      fun _ =>
        insert_records_using_merge o projectId datasetId tableId timestamp records batchSize

/-! ## KPIMappingManager: mapping cache and lookup -/

/-- One row of the `rollup_reference.kpi_event_mapping` table as read by
`_load_mappings`. -/
structure KPIRow : Type where
  ad_account_id : String
  user_friendly_name : String
  meta_action_type : String
deriving DecidableEq

/-- The cache key `f"\x7bad_account_id\x7d:\x7buser_friendly_name\x7d"`. -/
def kpiKey (adAccountId kpiName : String) : String :=
  adAccountId ++ ":" ++ kpiName

/-- `KPIMappingManager._load_mappings`: build the cache dict row by row;
a later row with the same key overwrites an earlier one. -/
def load_mappings (rows : List KPIRow) : List (String × String) :=
  rows.foldl
    (fun cache row => assocSet cache (kpiKey row.ad_account_id row.user_friendly_name)
      row.meta_action_type)
    []

/-- `KPIMappingManager.get_mapping_for_account` (with a loaded cache):
account-specific key first, then the `"all"` fallback. -/
def get_mapping_for_account (cache : List (String × String))
    (adAccountId kpiName : String) : Option String :=
  match assocGet cache (kpiKey adAccountId kpiName) with
  | some v => some v
  | none => assocGet cache (kpiKey "all" kpiName)

/-! ## Lemmas about the field lists -/

theorem mem_float_fields {s : Schema} {f : String} :
    f ∈ float_fields s ↔
      ∃ info : FieldInfo, (f, info) ∈ s ∧ info.type = FType.ffloat ∧ info.nested = false := by
  simp only [float_fields, List.mem_map, List.mem_filter, Bool.and_eq_true,
    decide_eq_true_eq, Bool.not_eq_true']
  constructor
  · rintro ⟨⟨g, info⟩, ⟨hmem, ht, hn⟩, rfl⟩
    exact ⟨info, hmem, ht, hn⟩
  · rintro ⟨info, hmem, ht, hn⟩
    exact ⟨(f, info), ⟨hmem, ht, hn⟩, rfl⟩

theorem mem_int_fields {s : Schema} {f : String} :
    f ∈ int_fields s ↔
      ∃ info : FieldInfo, (f, info) ∈ s ∧ info.type = FType.fint ∧ info.nested = false := by
  simp only [int_fields, List.mem_map, List.mem_filter, Bool.and_eq_true,
    decide_eq_true_eq, Bool.not_eq_true']
  constructor
  · rintro ⟨⟨g, info⟩, ⟨hmem, ht, hn⟩, rfl⟩
    exact ⟨info, hmem, ht, hn⟩
  · rintro ⟨info, hmem, ht, hn⟩
    exact ⟨(f, info), ⟨hmem, ht, hn⟩, rfl⟩

theorem mem_date_fields {s : Schema} {f : String} :
    f ∈ date_fields s ↔
      ∃ info : FieldInfo, (f, info) ∈ s ∧ info.type = FType.fdate ∧ info.nested = false := by
  simp only [date_fields, List.mem_map, List.mem_filter, Bool.and_eq_true,
    decide_eq_true_eq, Bool.not_eq_true']
  constructor
  · rintro ⟨⟨g, info⟩, ⟨hmem, ht, hn⟩, rfl⟩
    exact ⟨info, hmem, ht, hn⟩
  · rintro ⟨info, hmem, ht, hn⟩
    exact ⟨(f, info), ⟨hmem, ht, hn⟩, rfl⟩

theorem mem_action_fields {s : Schema} {f : String} {info : FieldInfo} :
    (f, info) ∈ action_fields s ↔ (f, info) ∈ s ∧ info.nested = true := by
  simp [action_fields, List.mem_filter]

/-- The payload of a schema key is unique when the schema keys are
duplicate-free (CPython dict keys always are). -/
theorem schema_info_unique {s : Schema} (hnd : (s.map Prod.fst).Nodup)
    {f : String} {info info' : FieldInfo} (h : (f, info) ∈ s) (h' : (f, info') ∈ s) :
    info = info' :=
  assoc_mem_unique hnd h h'

/-- Keys of the filtered field lists stay duplicate-free. -/
theorem nodup_filter_fst {β : Type} {l : List (String × β)} (p : String × β → Bool)
    (hnd : (l.map Prod.fst).Nodup) : ((l.filter p).map Prod.fst).Nodup :=
  hnd.sublist (List.Sublist.map Prod.fst (List.filter_sublist l))

theorem nodup_float_fields {s : Schema} (hnd : (s.map Prod.fst).Nodup) :
    (float_fields s).Nodup := nodup_filter_fst _ hnd

theorem nodup_int_fields {s : Schema} (hnd : (s.map Prod.fst).Nodup) :
    (int_fields s).Nodup := nodup_filter_fst _ hnd

theorem nodup_date_fields {s : Schema} (hnd : (s.map Prod.fst).Nodup) :
    (date_fields s).Nodup := nodup_filter_fst _ hnd

theorem nodup_action_fields {s : Schema} (hnd : (s.map Prod.fst).Nodup) :
    ((action_fields s).map Prod.fst).Nodup := nodup_filter_fst _ hnd

/-- A field that occurs in the schema with a given info is in `float_fields`
or not, decided by the info alone, once keys are duplicate-free. -/
theorem not_mem_float_fields {s : Schema} (hnd : (s.map Prod.fst).Nodup)
    {f : String} {info : FieldInfo} (hmem : (f, info) ∈ s)
    (h : ¬(info.type = FType.ffloat ∧ info.nested = false)) : f ∉ float_fields s := by
  intro hf
  obtain ⟨info', hmem', ht, hn⟩ := mem_float_fields.1 hf
  rw [← schema_info_unique hnd hmem hmem'] at ht hn
  exact h ⟨ht, hn⟩

theorem not_mem_int_fields {s : Schema} (hnd : (s.map Prod.fst).Nodup)
    {f : String} {info : FieldInfo} (hmem : (f, info) ∈ s)
    (h : ¬(info.type = FType.fint ∧ info.nested = false)) : f ∉ int_fields s := by
  intro hf
  obtain ⟨info', hmem', ht, hn⟩ := mem_int_fields.1 hf
  rw [← schema_info_unique hnd hmem hmem'] at ht hn
  exact h ⟨ht, hn⟩

theorem not_mem_date_fields {s : Schema} (hnd : (s.map Prod.fst).Nodup)
    {f : String} {info : FieldInfo} (hmem : (f, info) ∈ s)
    (h : ¬(info.type = FType.fdate ∧ info.nested = false)) : f ∉ date_fields s := by
  intro hf
  obtain ⟨info', hmem', ht, hn⟩ := mem_date_fields.1 hf
  rw [← schema_info_unique hnd hmem hmem'] at ht hn
  exact h ⟨ht, hn⟩

theorem not_mem_action_fields {s : Schema} (hnd : (s.map Prod.fst).Nodup)
    {f : String} {info : FieldInfo} (hmem : (f, info) ∈ s)
    (h : info.nested = false) : f ∉ (action_fields s).map Prod.fst := by
  intro hf
  obtain ⟨⟨g, info'⟩, hg, rfl⟩ := List.mem_map.1 hf
  obtain ⟨hmem', hn⟩ := mem_action_fields.1 hg
  rw [schema_info_unique hnd hmem hmem'] at h
  rw [h] at hn
  cases hn

/-! ## Lemmas about the transformation passes -/

theorem scalarPass_cons_absent (conv : PyVal → Option PyVal) {f : String}
    (fs : List String) {r : Record} (hget : assocGet r f = none) :
    scalarPass conv (f :: fs) r = scalarPass conv fs r := by
  simp [scalarPass, hget]

theorem scalarPass_cons_none (conv : PyVal → Option PyVal) {f : String}
    (fs : List String) {r : Record} {v : PyVal} (hget : assocGet r f = some v)
    (hn : isNone v = true) : scalarPass conv (f :: fs) r = scalarPass conv fs r := by
  simp [scalarPass, hget, hn]

theorem scalarPass_cons_fail (conv : PyVal → Option PyVal) {f : String}
    (fs : List String) {r : Record} {v : PyVal} (hget : assocGet r f = some v)
    (hn : isNone v = false) (hc : conv v = none) :
    scalarPass conv (f :: fs) r = none := by
  simp [scalarPass, hget, hn, hc]

theorem scalarPass_cons_conv (conv : PyVal → Option PyVal) {f : String}
    (fs : List String) {r : Record} {v w : PyVal} (hget : assocGet r f = some v)
    (hn : isNone v = false) (hc : conv v = some w) :
    scalarPass conv (f :: fs) r = scalarPass conv fs (assocSet r f w) := by
  simp [scalarPass, hget, hn, hc]

theorem scalarPass_frame (conv : PyVal → Option PyVal) {fs : List String}
    {r r' : Record} (h : scalarPass conv fs r = some r') {k : String} (hk : k ∉ fs) :
    assocGet r' k = assocGet r k := by
  induction fs generalizing r with
  | nil =>
    simp only [scalarPass] at h
    cases h; rfl
  | cons f fs ih =>
    have hkf : k ≠ f := fun hkf => hk (hkf ▸ List.mem_cons_self f fs)
    have hkfs : k ∉ fs := fun hh => hk (List.mem_cons_of_mem f hh)
    cases hget : assocGet r f with
    | none =>
      rw [scalarPass_cons_absent conv fs hget] at h
      exact ih h hkfs
    | some v =>
      cases hn : isNone v with
      | true =>
        rw [scalarPass_cons_none conv fs hget hn] at h
        exact ih h hkfs
      | false =>
        cases hconv : conv v with
        | none => rw [scalarPass_cons_fail conv fs hget hn hconv] at h; cases h
        | some w =>
          rw [scalarPass_cons_conv conv fs hget hn hconv] at h
          rw [ih h hkfs]
          exact assocGet_set_ne r f k w hkf

theorem scalarPass_mem (conv : PyVal → Option PyVal) {fs : List String}
    {r r' : Record} (hnd : fs.Nodup) (h : scalarPass conv fs r = some r')
    {f : String} (hf : f ∈ fs) :
    (assocGet r f = none ∧ assocGet r' f = none) ∨
    (∃ v, assocGet r f = some v ∧ isNone v = true ∧ assocGet r' f = some v) ∨
    (∃ v w, assocGet r f = some v ∧ isNone v = false ∧ conv v = some w ∧
      assocGet r' f = some w) := by
  induction fs generalizing r with
  | nil => cases hf
  | cons g fs ih =>
    simp only [List.nodup_cons] at hnd
    rcases List.mem_cons.1 hf with rfl | hf'
    · -- f is processed at this step; the tail does not mention it again
      cases hget : assocGet r f with
      | none =>
        rw [scalarPass_cons_absent conv fs hget] at h
        exact Or.inl ⟨rfl, (scalarPass_frame conv h hnd.1).trans hget⟩
      | some v =>
        cases hn : isNone v with
        | true =>
          rw [scalarPass_cons_none conv fs hget hn] at h
          exact Or.inr (Or.inl ⟨v, rfl, hn, (scalarPass_frame conv h hnd.1).trans hget⟩)
        | false =>
          cases hconv : conv v with
          | none => rw [scalarPass_cons_fail conv fs hget hn hconv] at h; cases h
          | some w =>
            rw [scalarPass_cons_conv conv fs hget hn hconv] at h
            refine Or.inr (Or.inr ⟨v, w, rfl, hn, hconv, ?_⟩)
            exact (scalarPass_frame conv h hnd.1).trans (assocGet_set_self r f w)
    · -- f lives in the tail; this step touches only g ≠ f
      have hgf : f ≠ g := fun hh => hnd.1 (hh ▸ hf')
      cases hget : assocGet r g with
      | none =>
        rw [scalarPass_cons_absent conv fs hget] at h
        exact ih hnd.2 h hf'
      | some v =>
        cases hn : isNone v with
        | true =>
          rw [scalarPass_cons_none conv fs hget hn] at h
          exact ih hnd.2 h hf'
        | false =>
          cases hconv : conv v with
          | none => rw [scalarPass_cons_fail conv fs hget hn hconv] at h; cases h
          | some w =>
            rw [scalarPass_cons_conv conv fs hget hn hconv] at h
            have := ih hnd.2 h hf'
            rwa [assocGet_set_ne r g f w hgf] at this

theorem scalarPass_fail (conv : PyVal → Option PyVal) {fs : List String}
    {r : Record} (hnd : fs.Nodup) {f : String} {v : PyVal} (hf : f ∈ fs)
    (hv : assocGet r f = some v) (hn : isNone v = false) (hc : conv v = none) :
    scalarPass conv fs r = none := by
  induction fs generalizing r with
  | nil => cases hf
  | cons g fs ih =>
    simp only [List.nodup_cons] at hnd
    rcases List.mem_cons.1 hf with rfl | hf'
    · exact scalarPass_cons_fail conv fs hv hn hc
    · have hgf : f ≠ g := fun hh => hnd.1 (hh ▸ hf')
      cases hget : assocGet r g with
      | none =>
        rw [scalarPass_cons_absent conv fs hget]
        exact ih hnd.2 hf' hv
      | some w =>
        cases hnw : isNone w with
        | true =>
          rw [scalarPass_cons_none conv fs hget hnw]
          exact ih hnd.2 hf' hv
        | false =>
          cases hconv : conv w with
          | none => exact scalarPass_cons_fail conv fs hget hnw hconv
          | some w' =>
            rw [scalarPass_cons_conv conv fs hget hnw hconv]
            refine ih hnd.2 hf' ?_
            rw [assocGet_set_ne r g f w' hgf]
            exact hv

theorem actionPass_cons_absent {fi : String × FieldInfo} (fs : Schema) {r : Record}
    (hget : assocGet r fi.1 = none) : actionPass (fi :: fs) r = actionPass fs r := by
  simp [actionPass, hget]

theorem actionPass_cons_fail {fi : String × FieldInfo} (fs : Schema) {r : Record}
    {v : PyVal} (hget : assocGet r fi.1 = some v)
    (hc : validate_and_convert_action_field fi.1 v fi.2 = none) :
    actionPass (fi :: fs) r = none := by
  simp [actionPass, hget, hc]

theorem actionPass_cons_conv {fi : String × FieldInfo} (fs : Schema) {r : Record}
    {v w : PyVal} (hget : assocGet r fi.1 = some v)
    (hc : validate_and_convert_action_field fi.1 v fi.2 = some w) :
    actionPass (fi :: fs) r = actionPass fs (assocSet r fi.1 w) := by
  simp [actionPass, hget, hc]

theorem actionPass_frame {fs : Schema} {r r' : Record}
    (h : actionPass fs r = some r') {k : String} (hk : k ∉ fs.map Prod.fst) :
    assocGet r' k = assocGet r k := by
  induction fs generalizing r with
  | nil =>
    simp only [actionPass] at h
    cases h; rfl
  | cons fi fs ih =>
    have hkf : k ≠ fi.1 := fun hkf => hk (hkf ▸ List.mem_map_of_mem Prod.fst (List.mem_cons_self fi fs))
    have hkfs : k ∉ fs.map Prod.fst := by
      intro hh
      exact hk (by simpa using Or.inr (by simpa using hh))
    cases hget : assocGet r fi.1 with
    | none =>
      rw [actionPass_cons_absent fs hget] at h
      exact ih h hkfs
    | some v =>
      cases hconv : validate_and_convert_action_field fi.1 v fi.2 with
      | none => rw [actionPass_cons_fail fs hget hconv] at h; cases h
      | some w =>
        rw [actionPass_cons_conv fs hget hconv] at h
        rw [ih h hkfs]
        exact assocGet_set_ne r fi.1 k w hkf

theorem actionPass_mem {fs : Schema} {r r' : Record}
    (hnd : (fs.map Prod.fst).Nodup) (h : actionPass fs r = some r')
    {f : String} {info : FieldInfo} (hf : (f, info) ∈ fs) :
    (assocGet r f = none ∧ assocGet r' f = none) ∨
    (∃ v w, assocGet r f = some v ∧ validate_and_convert_action_field f v info = some w ∧
      assocGet r' f = some w) := by
  induction fs generalizing r with
  | nil => cases hf
  | cons fi fs ih =>
    simp only [List.map_cons, List.nodup_cons] at hnd
    rcases List.mem_cons.1 hf with rfl | hf'
    · cases hget : assocGet r f with
      | none =>
        rw [actionPass_cons_absent fs hget] at h
        exact Or.inl ⟨rfl, (actionPass_frame h hnd.1).trans hget⟩
      | some v =>
        cases hconv : validate_and_convert_action_field f v info with
        | none => rw [actionPass_cons_fail fs hget hconv] at h; cases h
        | some w =>
          rw [actionPass_cons_conv fs hget hconv] at h
          refine Or.inr ⟨v, w, rfl, hconv, ?_⟩
          exact (actionPass_frame h hnd.1).trans (assocGet_set_self r f w)
    · have hgf : f ≠ fi.1 := by
        intro hh
        exact hnd.1 (hh ▸ List.mem_map_of_mem Prod.fst hf')
      cases hget : assocGet r fi.1 with
      | none =>
        rw [actionPass_cons_absent fs hget] at h
        exact ih hnd.2 h hf'
      | some v =>
        cases hconv : validate_and_convert_action_field fi.1 v fi.2 with
        | none => rw [actionPass_cons_fail fs hget hconv] at h; cases h
        | some w =>
          rw [actionPass_cons_conv fs hget hconv] at h
          have := ih hnd.2 h hf'
          rwa [assocGet_set_ne r fi.1 f w hgf] at this

theorem actionPass_fail {fs : Schema} {r : Record}
    (hnd : (fs.map Prod.fst).Nodup) {f : String} {info : FieldInfo} {v : PyVal}
    (hf : (f, info) ∈ fs) (hv : assocGet r f = some v)
    (hc : validate_and_convert_action_field f v info = none) :
    actionPass fs r = none := by
  induction fs generalizing r with
  | nil => cases hf
  | cons fi fs ih =>
    simp only [List.map_cons, List.nodup_cons] at hnd
    rcases List.mem_cons.1 hf with rfl | hf'
    · exact actionPass_cons_fail fs hv hc
    · have hgf : f ≠ fi.1 := by
        intro hh
        exact hnd.1 (hh ▸ List.mem_map_of_mem Prod.fst hf')
      cases hget : assocGet r fi.1 with
      | none =>
        rw [actionPass_cons_absent fs hget]
        exact ih hnd.2 hf' hv
      | some w =>
        cases hconv : validate_and_convert_action_field fi.1 w fi.2 with
        | none => exact actionPass_cons_fail fs hget hconv
        | some w' =>
          rw [actionPass_cons_conv fs hget hconv]
          refine ih hnd.2 hf' ?_
          rw [assocGet_set_ne r fi.1 f w' hgf]
          exact hv

/-! ## What a successful transform guarantees -/

/-- A value that satisfies the warehouse-native shape of a semantic type. -/
def typedVal (t : FType) (v : PyVal) : Prop :=
  match t with
  | FType.fint => ∃ n, v = pint n
  | FType.ffloat => ∃ z, v = pfloat z
  | FType.fstr => ∃ s, v = pstr s
  | FType.fdate => False

/-- Shape of a converted repeated-group element: a two-key dict with a
string `action_type` and a `value` that is null or of the element type. -/
def coercedItem (info : FieldInfo) (x : PyVal) : Prop :=
  ∃ a cv, x = pdict [("action_type", pstr a), ("value", cv)] ∧
    (cv = pnone ∨ typedVal info.type cv)

/-- Shape of a fully coerced scalar value. A `str`-typed field is never
touched by the transformer, so nothing is guaranteed for it. -/
def coercedScalar (t : FType) (v : PyVal) : Prop :=
  match t with
  | FType.ffloat => ∃ z, v = pfloat z
  | FType.fint => ∃ n, v = pint n
  | FType.fdate => ∃ s0, v = pstr s0 ∧ dateOkStr s0 = true
  | FType.fstr => True

/-- A record in which every schema field that is present (and, for scalars,
non-null) carries its fully coerced warehouse shape — no partially coerced
field remains. -/
def FullyCoerced (s : Schema) (r : Record) : Prop :=
  ∀ f info, (f, info) ∈ s →
    (info.nested = false → ∀ v, assocGet r f = some v → isNone v = false →
      coercedScalar info.type v) ∧
    (info.nested = true → ∀ v, assocGet r f = some v →
      v = pnone ∨ ∃ xs, v = plist xs ∧ ∀ x ∈ xs, coercedItem info x)

theorem pyDateOk_iff {v : PyVal} :
    pyDateOk v = true ↔ ∃ s0, v = pstr s0 ∧ dateOkStr s0 = true := by
  cases v <;> simp [pyDateOk]

theorem convertByType_image {t : FType} {v w : PyVal}
    (h : convertByType t v = some w) : typedVal t w := by
  cases t with
  | fint =>
    simp only [convertByType, Option.map_eq_some'] at h
    obtain ⟨n, _, rfl⟩ := h
    exact ⟨n, rfl⟩
  | ffloat =>
    simp only [convertByType, Option.map_eq_some'] at h
    obtain ⟨z, _, rfl⟩ := h
    exact ⟨z, rfl⟩
  | fstr =>
    simp only [convertByType] at h
    exact ⟨pyToString v, (Option.some.inj h).symm⟩
  | fdate => simp [convertByType] at h

theorem convertActionItem_image {info : FieldInfo} {x y : PyVal}
    (h : convertActionItem info x = some y) : coercedItem info y := by
  cases x with
  | pdict entries =>
    cases hat : assocGet entries "action_type" with
    | none => simp [convertActionItem, hat] at h
    | some at0 =>
      cases hval : assocGet entries "value" with
      | none => simp [convertActionItem, hat, hval] at h
      | some value =>
        simp only [convertActionItem, hat, hval] at h
        by_cases hnull : isNone value && info.nullable
        · rw [if_pos hnull] at h
          simp only [Option.map_some'] at h
          exact ⟨pyToString at0, pnone, (Option.some.inj h).symm, Or.inl rfl⟩
        · rw [if_neg hnull] at h
          cases hconv : convertByType info.type value with
          | none => rw [hconv] at h; cases h
          | some cv =>
            rw [hconv] at h
            simp only [Option.map_some'] at h
            exact ⟨pyToString at0, cv, (Option.some.inj h).symm, Or.inr (convertByType_image hconv)⟩
  | pstr s0 => simp [convertActionItem] at h
  | pint n => simp [convertActionItem] at h
  | pfloat z => simp [convertActionItem] at h
  | pnone => simp [convertActionItem] at h
  | plist l => simp [convertActionItem] at h

/-- A falsy repeated-group value (`None`, empty list, zero, empty string,
...) is normalized to Python `None` by
`_validate_and_convert_action_field`. -/
theorem vacaf_falsy (f : String) (info : FieldInfo) {v : PyVal}
    (ht : pyTruthy v = false) :
    validate_and_convert_action_field f v info = some pnone := by
  cases v <;> simp [validate_and_convert_action_field, ht]

theorem vacaf_image {f : String} {v w : PyVal} {info : FieldInfo}
    (h : validate_and_convert_action_field f v info = some w) :
    w = pnone ∨ ∃ xs, w = plist xs ∧ ∀ x ∈ xs, coercedItem info x := by
  by_cases ht : pyTruthy v
  · cases v with
    | plist items =>
      simp only [validate_and_convert_action_field, ht, Bool.not_true, Bool.false_eq_true,
        if_false] at h
      cases hm : mapOptM (convertActionItem info) items with
      | none => simp [hm] at h
      | some xs =>
        rw [hm] at h
        simp only [Option.map_some'] at h
        refine Or.inr ⟨xs, (Option.some.inj h).symm, fun x hx => ?_⟩
        obtain ⟨y, _, hy⟩ := mapOptM_mem_of_some _ hm x hx
        exact convertActionItem_image hy
    | pstr s0 =>
      simp only [validate_and_convert_action_field, ht, Bool.not_true, Bool.false_eq_true,
        if_false] at h
      exact Option.noConfusion h
    | pint n =>
      simp only [validate_and_convert_action_field, ht, Bool.not_true, Bool.false_eq_true,
        if_false] at h
      exact Option.noConfusion h
    | pfloat z =>
      simp only [validate_and_convert_action_field, ht, Bool.not_true, Bool.false_eq_true,
        if_false] at h
      exact Option.noConfusion h
    | pnone => simp [pyTruthy] at ht
    | pdict e =>
      simp only [validate_and_convert_action_field, ht, Bool.not_true, Bool.false_eq_true,
        if_false] at h
      exact Option.noConfusion h
  · rw [Bool.not_eq_true] at ht
    rw [vacaf_falsy f info ht] at h
    exact Or.inl (Option.some.inj h).symm

/-- Decompose a successful `transform_for_bigquery` into its four passes. -/
theorem transform_eq_some {s : Schema} {r r' : Record}
    (h : transform_for_bigquery s r = some r') :
    ∃ r1 r2 r3, actionPass (action_fields s) r = some r1 ∧
      scalarPass floatConv (float_fields s) r1 = some r2 ∧
      scalarPass intConv (int_fields s) r2 = some r3 ∧
      scalarPass dateConv (date_fields s) r3 = some r' := by
  simp only [transform_for_bigquery, Option.bind_eq_some] at h
  obtain ⟨r1, h1, hr⟩ := h
  obtain ⟨r2, h2, hr2⟩ := hr
  obtain ⟨r3, h3, h4⟩ := hr2
  exact ⟨r1, r2, r3, h1, h2, h3, h4⟩

/-- Core guarantee shared by several claims: a record that survives
`transform_for_bigquery` is fully coerced in every schema field. -/
theorem transform_fullyCoerced {s : Schema} {r r' : Record}
    (hnd : (s.map Prod.fst).Nodup) (h : transform_for_bigquery s r = some r') :
    FullyCoerced s r' := by
  obtain ⟨r1, r2, r3, h1, h2, h3, h4⟩ := transform_eq_some h
  intro f info hmem
  cases hnested : info.nested with
  | true =>
    refine ⟨fun hc => absurd hc (by decide), fun _ v hv => ?_⟩
    -- the three scalar passes do not touch a nested field
    have hni : f ∉ int_fields s := not_mem_int_fields hnd hmem (by simp [hnested])
    have hnf : f ∉ float_fields s := not_mem_float_fields hnd hmem (by simp [hnested])
    have hndt : f ∉ date_fields s := not_mem_date_fields hnd hmem (by simp [hnested])
    have e4 : assocGet r' f = assocGet r3 f := scalarPass_frame dateConv h4 hndt
    have e3 : assocGet r3 f = assocGet r2 f := scalarPass_frame intConv h3 hni
    have e2 : assocGet r2 f = assocGet r1 f := scalarPass_frame floatConv h2 hnf
    have hv1 : assocGet r1 f = some v := by rw [← e2, ← e3, ← e4]; exact hv
    have hfa : (f, info) ∈ action_fields s := mem_action_fields.2 ⟨hmem, hnested⟩
    rcases actionPass_mem (nodup_action_fields hnd) h1 hfa with ⟨_, hnone⟩ | ⟨v0, w, _, hcv, hw⟩
    · rw [hnone] at hv1; cases hv1
    · rw [hw] at hv1
      cases hv1
      exact vacaf_image hcv
  | false =>
    refine ⟨fun _ v hv hvn => ?_, fun hc => absurd hc (by decide)⟩
    have hna : f ∉ (action_fields s).map Prod.fst := not_mem_action_fields hnd hmem hnested
    cases htype : info.type with
    | ffloat =>
      have hni : f ∉ int_fields s := not_mem_int_fields hnd hmem (by simp [htype])
      have hndt : f ∉ date_fields s := not_mem_date_fields hnd hmem (by simp [htype])
      have hin : f ∈ float_fields s := mem_float_fields.2 ⟨info, hmem, htype, hnested⟩
      have e4 : assocGet r' f = assocGet r3 f := scalarPass_frame dateConv h4 hndt
      have e3 : assocGet r3 f = assocGet r2 f := scalarPass_frame intConv h3 hni
      have hv2 : assocGet r2 f = some v := by rw [← e3, ← e4]; exact hv
      rcases scalarPass_mem floatConv (nodup_float_fields hnd) h2 hin with
        ⟨_, hnone⟩ | ⟨v0, _, hisn, hval⟩ | ⟨v0, w, _, _, hcv, hval⟩
      · rw [hnone] at hv2; cases hv2
      · rw [hval] at hv2
        cases hv2
        rw [hisn] at hvn; cases hvn
      · rw [hval] at hv2
        cases hv2
        simp only [coercedScalar, htype]
        simp only [floatConv, Option.map_eq_some'] at hcv
        obtain ⟨z, _, rfl⟩ := hcv
        exact ⟨z, rfl⟩
    | fint =>
      have hnf : f ∉ float_fields s := not_mem_float_fields hnd hmem (by simp [htype])
      have hndt : f ∉ date_fields s := not_mem_date_fields hnd hmem (by simp [htype])
      have hin : f ∈ int_fields s := mem_int_fields.2 ⟨info, hmem, htype, hnested⟩
      have e4 : assocGet r' f = assocGet r3 f := scalarPass_frame dateConv h4 hndt
      have hv3 : assocGet r3 f = some v := by rw [← e4]; exact hv
      rcases scalarPass_mem intConv (nodup_int_fields hnd) h3 hin with
        ⟨_, hnone⟩ | ⟨v0, _, hisn, hval⟩ | ⟨v0, w, _, _, hcv, hval⟩
      · rw [hnone] at hv3; cases hv3
      · rw [hval] at hv3
        cases hv3
        rw [hisn] at hvn; cases hvn
      · rw [hval] at hv3
        cases hv3
        simp only [coercedScalar, htype]
        simp only [intConv, Option.map_eq_some'] at hcv
        obtain ⟨n, _, rfl⟩ := hcv
        exact ⟨n, rfl⟩
    | fdate =>
      have hin : f ∈ date_fields s := mem_date_fields.2 ⟨info, hmem, htype, hnested⟩
      rcases scalarPass_mem dateConv (nodup_date_fields hnd) h4 hin with
        ⟨_, hnone⟩ | ⟨v0, _, hisn, hval⟩ | ⟨v0, w, _, _, hcv, hval⟩
      · rw [hnone] at hv; cases hv
      · rw [hval] at hv
        cases hv
        rw [hisn] at hvn; cases hvn
      · rw [hval] at hv
        cases hv
        simp only [coercedScalar, htype]
        rw [dateConv] at hcv
        by_cases hok : pyDateOk v0
        · rw [if_pos hok] at hcv
          obtain ⟨s0, rfl, hds⟩ := pyDateOk_iff.1 hok
          cases hcv
          exact ⟨s0, rfl, hds⟩
        · rw [if_neg hok] at hcv; cases hcv
    | fstr =>
      simp [coercedScalar, htype]

/-- A single repeated-group element that fails conversion aborts the whole
record: `transform_for_bigquery` returns `None`. -/
theorem transform_none_of_item_fail {s : Schema} {r : Record} {f : String}
    {info : FieldInfo} {xs : List PyVal} {x : PyVal}
    (hnd : (s.map Prod.fst).Nodup) (hmem : (f, info) ∈ s) (hn : info.nested = true)
    (hv : assocGet r f = some (plist xs)) (hx : x ∈ xs)
    (hfail : convertActionItem info x = none) :
    transform_for_bigquery s r = none := by
  have hne : xs ≠ [] := fun hh => by rw [hh] at hx; cases hx
  have hconv : validate_and_convert_action_field f (plist xs) info = none := by
    rw [validate_and_convert_action_field]
    have ht : pyTruthy (plist xs) = true := by
      simp [pyTruthy, List.isEmpty_eq_true, hne]
    rw [ht]
    simp only [Bool.not_true, Bool.false_eq_true, if_false]
    rw [mapOptM_none_of_mem (convertActionItem info) hx hfail]
    rfl
  have hfa : (f, info) ∈ action_fields s := mem_action_fields.2 ⟨hmem, hn⟩
  have hap : actionPass (action_fields s) r = none :=
    actionPass_fail (nodup_action_fields hnd) hfa hv hconv
  rw [transform_for_bigquery, hap]
  rfl

/-! ## A fully coerced record validates cleanly -/

theorem scalarIssues_nil {f : String} {info : FieldInfo} {v : PyVal}
    (h : coercedScalar info.type v) : scalarIssues f info v = [] := by
  cases htype : info.type with
  | ffloat =>
    rw [htype] at h
    obtain ⟨z, rfl⟩ := h
    simp [scalarIssues, htype, pyFloatOfStr]
  | fint =>
    rw [htype] at h
    obtain ⟨n, rfl⟩ := h
    simp [scalarIssues, htype, pyIntOfStr]
  | fdate =>
    rw [htype] at h
    obtain ⟨s0, rfl, hds⟩ := h
    simp [scalarIssues, htype, pyDateOk, hds]
  | fstr => simp [scalarIssues, htype]

theorem actionItemIssues_nil {f : String} {info : FieldInfo} {x : PyVal}
    (h : coercedItem info x) (idx : Nat) : actionItemIssues f idx x = [] := by
  obtain ⟨a, cv, rfl, _⟩ := h
  simp [actionItemIssues, assocGet]

theorem actionItemsIssues_nil {f : String} {info : FieldInfo} {xs : List PyVal}
    (h : ∀ x ∈ xs, coercedItem info x) : ∀ idx, actionItemsIssues f idx xs = [] := by
  induction xs with
  | nil => intro idx; rfl
  | cons x xs ih =>
    intro idx
    rw [actionItemsIssues]
    rw [actionItemIssues_nil (h x (List.mem_cons_self x xs)) idx]
    rw [ih fun y hy => h y (List.mem_cons_of_mem x hy)]
    rfl

theorem validateIssues_nil_of_fullyCoerced {s : Schema} {r' : Record}
    (hFC : FullyCoerced s r') : validateIssues s r' = [] := by
  rw [validateIssues]
  rw [concatMapL_eq_nil _ s ?_, concatMapL_eq_nil _ (action_fields s) ?_]
  · rfl
  · -- repeated-group part
    rintro ⟨f, info⟩ hmem
    have hmem' := mem_action_fields.1 hmem
    cases hget : assocGet r' f with
    | none => rfl
    | some v =>
      rcases ((hFC f info hmem'.1).2 hmem'.2) v hget with rfl | ⟨xs, rfl, hxs⟩
      · rfl
      · cases ht : pyTruthy (plist xs) with
        | false => simp [ht]
        | true =>
          simp only [ht, if_true]
          rw [actionFieldIssues]
          exact actionItemsIssues_nil hxs 0
  · -- scalar part
    rintro ⟨f, info⟩ hmem
    cases hnested : info.nested with
    | true => simp [hnested]
    | false =>
      simp only [hnested, Bool.false_eq_true, if_false]
      cases hget : assocGet r' f with
      | none => rfl
      | some v =>
        cases hn : isNone v with
        | true => simp [hn]
        | false =>
          simp only [hn, Bool.false_eq_true, if_false]
          exact scalarIssues_nil (((hFC f info hmem).1 hnested) v hget hn)

/-- A record produced by a successful transform has no validation issues. -/
theorem validate_record_of_transform {s : Schema} {r r' : Record}
    (hnd : (s.map Prod.fst).Nodup) (h : transform_for_bigquery s r = some r') :
    validate_record s r' = (true, []) := by
  have hFC := transform_fullyCoerced hnd h
  rw [validate_record, validateIssues_nil_of_fullyCoerced hFC]
  rfl

/-! ## Tracking a single field through the whole transform -/

/-- If an int-typed scalar field holds a value whose int conversion fails,
the whole record transform fails. -/
theorem transform_none_of_int_fail {s : Schema} {r : Record}
    (hnd : (s.map Prod.fst).Nodup) {f : String} {info : FieldInfo}
    (hmem : (f, info) ∈ s) (ht : info.type = FType.fint) (hn : info.nested = false)
    {v : PyVal} (hv : assocGet r f = some v) (hnn : isNone v = false)
    (hc : intConv v = none) : transform_for_bigquery s r = none := by
  rw [transform_for_bigquery]
  cases h1 : actionPass (action_fields s) r with
  | none => rfl
  | some r1 =>
    have hv1 : assocGet r1 f = some v := by
      rw [actionPass_frame h1 (not_mem_action_fields hnd hmem hn)]
      exact hv
    simp only [Option.some_bind]
    cases h2 : scalarPass floatConv (float_fields s) r1 with
    | none => rfl
    | some r2 =>
      have hv2 : assocGet r2 f = some v := by
        rw [scalarPass_frame floatConv h2
          (not_mem_float_fields hnd hmem (by simp [ht]))]
        exact hv1
      simp only [Option.some_bind]
      rw [scalarPass_fail intConv (nodup_int_fields hnd)
        (mem_int_fields.2 ⟨info, hmem, ht, hn⟩) hv2 hnn hc]
      rfl

/-- If an int-typed scalar field holds a value whose int conversion
succeeds and the whole transform succeeds, the output holds exactly the
converted integer. -/
theorem transform_int_field_value {s : Schema} {r r' : Record}
    (hnd : (s.map Prod.fst).Nodup) {f : String} {info : FieldInfo}
    (hmem : (f, info) ∈ s) (ht : info.type = FType.fint) (hn : info.nested = false)
    {v w : PyVal} (hv : assocGet r f = some v) (hnn : isNone v = false)
    (hc : intConv v = some w) (h : transform_for_bigquery s r = some r') :
    assocGet r' f = some w := by
  obtain ⟨r1, r2, r3, h1, h2, h3, h4⟩ := transform_eq_some h
  have hv1 : assocGet r1 f = some v := by
    rw [actionPass_frame h1 (not_mem_action_fields hnd hmem hn)]
    exact hv
  have hv2 : assocGet r2 f = some v := by
    rw [scalarPass_frame floatConv h2 (not_mem_float_fields hnd hmem (by simp [ht]))]
    exact hv1
  have hin : f ∈ int_fields s := mem_int_fields.2 ⟨info, hmem, ht, hn⟩
  rcases scalarPass_mem intConv (nodup_int_fields hnd) h3 hin with
    ⟨hnone, _⟩ | ⟨v0, hval, hisn, _⟩ | ⟨v0, w0, hval, _, hcv, hout⟩
  · rw [hnone] at hv2; cases hv2
  · rw [hval] at hv2
    cases hv2
    rw [hisn] at hnn; cases hnn
  · rw [hval] at hv2
    cases hv2
    rw [hc] at hcv
    cases hcv
    rw [scalarPass_frame dateConv h4 (not_mem_date_fields hnd hmem (by simp [ht]))]
    exact hout

/-- A falsy repeated-group field in the input of a successful transform is
`None` in the output. -/
theorem transform_falsy_action_field {s : Schema} {r r' : Record}
    (hnd : (s.map Prod.fst).Nodup) {f : String} {info : FieldInfo}
    (hmem : (f, info) ∈ s) (hn : info.nested = true) {v : PyVal}
    (hv : assocGet r f = some v) (ht : pyTruthy v = false)
    (h : transform_for_bigquery s r = some r') : assocGet r' f = some pnone := by
  obtain ⟨r1, r2, r3, h1, h2, h3, h4⟩ := transform_eq_some h
  have hfa : (f, info) ∈ action_fields s := mem_action_fields.2 ⟨hmem, hn⟩
  rcases actionPass_mem (nodup_action_fields hnd) h1 hfa with
    ⟨hnone, _⟩ | ⟨v0, w, hval, hcv, hout⟩
  · rw [hnone] at hv; cases hv
  · rw [hval] at hv
    cases hv
    rw [vacaf_falsy f info ht] at hcv
    cases hcv
    rw [scalarPass_frame dateConv h4 (not_mem_date_fields hnd hmem (by simp [hn]))]
    rw [scalarPass_frame intConv h3 (not_mem_int_fields hnd hmem (by simp [hn]))]
    rw [scalarPass_frame floatConv h2 (not_mem_float_fields hnd hmem (by simp [hn]))]
    exact hout

/-! ## Loader monad lemmas -/

theorem pureL_run {ρ σ α : Type} (a : α) (tr : List (Op ρ σ)) :
    pureL a tr = (tr, Except.ok a) := rfl

theorem callOp_run {ρ σ α : Type} (op : Op ρ σ) (outcome : Except String α)
    (tr : List (Op ρ σ)) : callOp op outcome tr = (tr ++ [op], outcome) := rfl

theorem bindL_ok {ρ σ α β : Type} {m : LoaderM ρ σ α} {f : α → LoaderM ρ σ β}
    {tr tr' : List (Op ρ σ)} {a : α} (h : m tr = (tr', Except.ok a)) :
    bindL m f tr = f a tr' := by
  rw [bindL, h]

theorem bindL_err {ρ σ α β : Type} {m : LoaderM ρ σ α} {f : α → LoaderM ρ σ β}
    {tr tr' : List (Op ρ σ)} {e : String} (h : m tr = (tr', Except.error e)) :
    bindL m f tr = (tr', Except.error e) := by
  rw [bindL, h]

theorem tryCatchL_ok {ρ σ α : Type} {m : LoaderM ρ σ α} {h : String → LoaderM ρ σ α}
    {tr tr' : List (Op ρ σ)} {a : α} (hm : m tr = (tr', Except.ok a)) :
    tryCatchL m h tr = (tr', Except.ok a) := by
  rw [tryCatchL, hm]

theorem tryCatchL_err {ρ σ α : Type} {m : LoaderM ρ σ α} {h : String → LoaderM ρ σ α}
    {tr tr' : List (Op ρ σ)} {e : String} (hm : m tr = (tr', Except.error e)) :
    tryCatchL m h tr = h e tr' := by
  rw [tryCatchL, hm]

/-! ## Chunking lemmas -/

theorem chunksOf_nil {α : Type} (bs : Nat) : chunksOf bs ([] : List α) = [] := by
  rw [chunksOf]
  simp

theorem chunksOf_join_aux {α : Type} {bs : Nat} (hbs : bs ≠ 0) :
    ∀ (n : Nat) (l : List α), l.length ≤ n → (chunksOf bs l).flatten = l := by
  intro n
  induction n with
  | zero =>
    intro l hl
    have hnil : l = [] := List.eq_nil_of_length_eq_zero (Nat.le_zero.mp hl)
    rw [hnil, chunksOf_nil]
    rfl
  | succ n ih =>
    intro l hl
    rw [chunksOf, if_neg hbs]
    cases hl0 : l.isEmpty with
    | true =>
      rw [if_pos rfl]
      rw [List.isEmpty_eq_true] at hl0
      rw [hl0]
      rfl
    | false =>
      simp only [Bool.false_eq_true, if_false]
      rw [List.flatten_cons]
      rw [ih (l.drop bs) ?_]
      · exact List.take_append_drop bs l
      · rw [List.length_drop]
        have hpos : 0 < l.length := by
          cases l with
          | nil => simp [List.isEmpty] at hl0
          | cons a t => simp
        omega

theorem chunksOf_join {α : Type} {bs : Nat} (hbs : 1 ≤ bs) (l : List α) :
    (chunksOf bs l).flatten = l :=
  chunksOf_join_aux (Nat.one_le_iff_ne_zero.mp hbs) l.length l le_rfl

theorem chunksOf_sizes_aux {α : Type} {bs : Nat} (hbs : bs ≠ 0) :
    ∀ (n : Nat) (l : List α), l.length ≤ n →
      ∀ c ∈ chunksOf bs l, c ≠ [] ∧ c.length ≤ bs := by
  intro n
  induction n with
  | zero =>
    intro l hl
    have hnil : l = [] := List.eq_nil_of_length_eq_zero (Nat.le_zero.mp hl)
    rw [hnil, chunksOf_nil]
    intro c hc
    cases hc
  | succ n ih =>
    intro l hl
    rw [chunksOf, if_neg hbs]
    cases hl0 : l.isEmpty with
    | true =>
      rw [if_pos rfl]
      intro c hc
      cases hc
    | false =>
      simp only [Bool.false_eq_true, if_false]
      intro c hc
      have hlne : l ≠ [] := by
        intro hh
        rw [hh] at hl0
        simp [List.isEmpty] at hl0
      rcases List.mem_cons.1 hc with rfl | hc'
      · constructor
        · intro hh
          rcases List.take_eq_nil_iff.1 hh with h0 | h0
          · exact hbs h0
          · exact hlne h0
        · rw [List.length_take]
          exact Nat.min_le_left bs l.length
      · refine ih (l.drop bs) ?_ c hc'
        rw [List.length_drop]
        have hpos : 0 < l.length := List.length_pos.2 hlne
        omega

theorem chunksOf_sizes {α : Type} {bs : Nat} (hbs : 1 ≤ bs) (l : List α) :
    ∀ c ∈ chunksOf bs l, c ≠ [] ∧ c.length ≤ bs :=
  chunksOf_sizes_aux (Nat.one_le_iff_ne_zero.mp hbs) l.length l le_rfl

/-! ## The success-path trace of the loader -/

/-- The load operations the chunk loop issues, starting from a given write
mode (truncate for the first invocation, append afterwards). -/
def expectedLoadOps {ρ σ : Type} (dest : String) : WriteMode → List (List ρ) → List (Op ρ σ)
  | _, [] => []
  | mode, c :: cs => Op.load dest c mode :: expectedLoadOps dest WriteMode.append cs

/-- The write modes of a chunked load: the given first mode, then append. -/
def modesFrom (mode : WriteMode) : Nat → List WriteMode
  | 0 => []
  | n + 1 => mode :: List.replicate n WriteMode.append

theorem expectedLoadOps_eq_zipWith {ρ σ : Type} (dest : String) (mode : WriteMode)
    (chunks : List (List ρ)) :
    expectedLoadOps dest mode chunks =
      List.zipWith (fun c m => (Op.load dest c m : Op ρ σ)) chunks
        (modesFrom mode chunks.length) := by
  induction chunks generalizing mode with
  | nil => rfl
  | cons c cs ih =>
    rw [expectedLoadOps, List.length_cons, modesFrom, List.zipWith]
    rw [ih WriteMode.append]
    cases cs with
    | nil => rfl
    | cons c' cs' => rw [List.length_cons, modesFrom, List.replicate]

theorem loadChunks_ok {ρ σ : Type} (o : Oracle ρ σ) (dest : String)
    (hload : ∀ c m, o.load dest c m = Except.ok ()) :
    ∀ (chunks : List (List ρ)) (mode : WriteMode) (tr : List (Op ρ σ)),
      loadChunks o dest mode chunks tr = (tr ++ expectedLoadOps dest mode chunks, Except.ok ()) := by
  intro chunks
  induction chunks with
  | nil =>
    intro mode tr
    rw [loadChunks, expectedLoadOps]
    simp [pureL]
  | cons c cs ih =>
    intro mode tr
    rw [loadChunks]
    rw [bindL_ok (by rw [callOp_run, hload c mode])]
    rw [ih WriteMode.append (tr ++ [Op.load dest c mode])]
    rw [expectedLoadOps]
    simp

/-- The success-path behaviour of `merge_body`: when every warehouse call
succeeds, the body issues get-table, create-staging, the chunked loads,
one merge query, and the staging drop, in that order, and reports
`processed = len(records)`. -/
theorem merge_body_ok {ρ σ : Type} (o : Oracle ρ σ)
    (projectId datasetId tableId timestamp : String) (records : List ρ)
    (batchSize : Nat) (sch : σ) (n : Nat)
    (hget : o.getTable (tableRef projectId datasetId tableId) = Except.ok sch)
    (hcreate : o.createTable (tableRef projectId datasetId (tempTableIdOf tableId timestamp)) sch =
      Except.ok ())
    (hload : ∀ c m, o.load (tableRef projectId datasetId (tempTableIdOf tableId timestamp)) c m =
      Except.ok ())
    (hq : o.runQuery (build_merge_query projectId datasetId tableId
      (tempTableIdOf tableId timestamp)) = Except.ok n)
    (hdel : o.deleteTable (tableRef projectId datasetId (tempTableIdOf tableId timestamp)) =
      Except.ok ())
    (tr : List (Op ρ σ)) :
    merge_body o projectId datasetId tableId timestamp records batchSize tr =
      (tr ++
        (Op.getTable (tableRef projectId datasetId tableId) ::
         Op.createTable (tableRef projectId datasetId (tempTableIdOf tableId timestamp)) sch ::
         expectedLoadOps (tableRef projectId datasetId (tempTableIdOf tableId timestamp))
           WriteMode.truncate (chunksOf batchSize records)) ++
        [Op.query (build_merge_query projectId datasetId tableId (tempTableIdOf tableId timestamp)),
         Op.deleteTable (tableRef projectId datasetId (tempTableIdOf tableId timestamp))],
       Except.ok ⟨records.length, some n, "success"⟩) := by
  rw [merge_body]
  rw [bindL_ok (by rw [callOp_run, hget])]
  rw [bindL_ok (by rw [callOp_run, hcreate])]
  rw [bindL_ok (loadChunks_ok o _ hload (chunksOf batchSize records) WriteMode.truncate _)]
  rw [bindL_ok (by rw [callOp_run, hq])]
  rw [bindL_ok (by rw [callOp_run, hdel])]
  rw [pureL_run]
  simp

/-! ## KPI mapping lemmas -/

/-- The last row of the list whose concatenated cache key equals `key`
(the row whose value survives dict overwriting). -/
def lastMatchKey (rows : List KPIRow) (key : String) : Option KPIRow :=
  match rows with
  | [] => none
  | r :: rs =>
    match lastMatchKey rs key with
    | some x => some x
    | none =>
      if kpiKey r.ad_account_id r.user_friendly_name = key then some r else none

/-- The last row of the list with exactly this account id and KPI name. -/
def lastMatch (rows : List KPIRow) (acc name : String) : Option KPIRow :=
  match rows with
  | [] => none
  | r :: rs =>
    match lastMatch rs acc name with
    | some x => some x
    | none =>
      if r.ad_account_id = acc ∧ r.user_friendly_name = name then some r else none

theorem load_mappings_get_aux (rows : List KPIRow) (key : String) :
    ∀ cache,
      assocGet (rows.foldl (fun cache row =>
        assocSet cache (kpiKey row.ad_account_id row.user_friendly_name)
          row.meta_action_type) cache) key =
      match lastMatchKey rows key with
      | some r => some r.meta_action_type
      | none => assocGet cache key := by
  induction rows with
  | nil => intro cache; rfl
  | cons r rs ih =>
    intro cache
    rw [List.foldl_cons, ih, lastMatchKey]
    cases hlm : lastMatchKey rs key with
    | some x => rfl
    | none =>
      by_cases hk : kpiKey r.ad_account_id r.user_friendly_name = key
      · rw [if_pos hk, ← hk, assocGet_set_self]
      · rw [if_neg hk, assocGet_set_ne _ _ _ _ (fun hh => hk hh.symm)]

theorem load_mappings_get (rows : List KPIRow) (key : String) :
    assocGet (load_mappings rows) key =
      match lastMatchKey rows key with
      | some r => some r.meta_action_type
      | none => none := by
  rw [load_mappings, load_mappings_get_aux rows key []]
  cases lastMatchKey rows key <;> rfl

/-- A string containing no colon. -/
def noColon (s : String) : Bool := s.data.all fun c => c ≠ ':'

theorem colon_split_inj_chars :
    ∀ (a a' k k' : List Char), (∀ c ∈ a, c ≠ ':') → (∀ c ∈ a', c ≠ ':') →
      a ++ ':' :: k = a' ++ ':' :: k' → a = a' ∧ k = k' := by
  intro a
  induction a with
  | nil =>
    intro a' k k' _ ha' h
    cases a' with
    | nil => simpa using h
    | cons c cs =>
      simp only [List.nil_append, List.cons_append, List.cons.injEq] at h
      exact absurd h.1.symm (ha' c (List.mem_cons_self c cs))
  | cons c cs ih =>
    intro a' k k' ha ha' h
    cases a' with
    | nil =>
      simp only [List.cons_append, List.nil_append, List.cons.injEq] at h
      exact absurd h.1 (ha c (List.mem_cons_self c cs))
    | cons c' cs' =>
      simp only [List.cons_append, List.cons.injEq] at h
      obtain ⟨rfl, h2⟩ := h
      obtain ⟨ha1, hk⟩ := ih cs' k k'
        (fun x hx => ha x (List.mem_cons_of_mem c hx))
        (fun x hx => ha' x (List.mem_cons_of_mem c hx)) h2
      exact ⟨by rw [ha1], hk⟩

/-- The colon-joined cache key is injective on colon-free components. -/
theorem kpiKey_inj {a a' k k' : String} (ha : noColon a = true) (ha' : noColon a' = true)
    (h : kpiKey a k = kpiKey a' k') : a = a' ∧ k = k' := by
  have hdata : a.data ++ ':' :: k.data = a'.data ++ ':' :: k'.data := by
    have h1 := congrArg String.data h
    simpa [kpiKey, String.data_append] using h1
  have hca : ∀ c ∈ a.data, c ≠ ':' := by
    intro c hc
    have := List.all_eq_true.1 ha c hc
    simpa using this
  have hca' : ∀ c ∈ a'.data, c ≠ ':' := by
    intro c hc
    have := List.all_eq_true.1 ha' c hc
    simpa using this
  obtain ⟨h1, h2⟩ := colon_split_inj_chars a.data a'.data k.data k'.data hca hca' hdata
  exact ⟨String.ext h1, String.ext h2⟩

theorem lastMatchKey_eq_lastMatch {rows : List KPIRow} {acc name : String}
    (hacc : noColon acc = true)
    (hrows : ∀ row ∈ rows, noColon row.ad_account_id = true) :
    lastMatchKey rows (kpiKey acc name) = lastMatch rows acc name := by
  induction rows with
  | nil => rfl
  | cons r rs ih =>
    rw [lastMatchKey, lastMatch]
    rw [ih fun row hrow => hrows row (List.mem_cons_of_mem r hrow)]
    cases lastMatch rs acc name with
    | some x => rfl
    | none =>
      by_cases hcond : r.ad_account_id = acc ∧ r.user_friendly_name = name
      · rw [if_pos hcond, if_pos (by rw [hcond.1, hcond.2])]
      · rw [if_neg hcond, if_neg ?_]
        intro hk
        exact hcond (kpiKey_inj (hrows r (List.mem_cons_self r rs)) hacc hk)

/-! ## Claim theorems -/

/-- C1: For every non-empty record list and every `batch_size >= 1`, when
every warehouse call succeeds, a single `_insert_records_using_merge`
invocation issues exactly this operation sequence: one get-table on the
target, one staging-table creation carrying the target schema, one chunked
load per `batch_size`-chunk of the records (the first with truncate mode,
every later one with append mode), then exactly one merge query, then one
staging-table drop; and it returns `processed` equal to the number of
input records. The chunks concatenate back to the records, are non-empty,
and have size at most `batch_size`. -/
theorem claim1_single_pass_upsert {ρ σ : Type} (o : Oracle ρ σ)
    (projectId datasetId tableId timestamp : String) (records : List ρ)
    (batchSize : Nat) (sch : σ) (n : Nat)
    (_hne : records ≠ []) (hbs : 1 ≤ batchSize)
    (hget : o.getTable (tableRef projectId datasetId tableId) = Except.ok sch)
    (hcreate : o.createTable (tableRef projectId datasetId (tempTableIdOf tableId timestamp)) sch =
      Except.ok ())
    (hload : ∀ c m, o.load (tableRef projectId datasetId (tempTableIdOf tableId timestamp)) c m =
      Except.ok ())
    (hq : o.runQuery (build_merge_query projectId datasetId tableId
      (tempTableIdOf tableId timestamp)) = Except.ok n)
    (hdel : o.deleteTable (tableRef projectId datasetId (tempTableIdOf tableId timestamp)) =
      Except.ok ()) :
    insert_records_using_merge o projectId datasetId tableId timestamp records batchSize [] =
      (Op.getTable (tableRef projectId datasetId tableId) ::
       Op.createTable (tableRef projectId datasetId (tempTableIdOf tableId timestamp)) sch ::
       (List.zipWith
          (fun c m => Op.load (tableRef projectId datasetId (tempTableIdOf tableId timestamp)) c m)
          (chunksOf batchSize records)
          (modesFrom WriteMode.truncate (chunksOf batchSize records).length) ++
        [Op.query (build_merge_query projectId datasetId tableId (tempTableIdOf tableId timestamp)),
         Op.deleteTable (tableRef projectId datasetId (tempTableIdOf tableId timestamp))]),
       Except.ok ⟨records.length, some n, "success"⟩) ∧
    (chunksOf batchSize records).flatten = records ∧
    ∀ c ∈ chunksOf batchSize records, c ≠ [] ∧ c.length ≤ batchSize := by
  refine ⟨?_, chunksOf_join hbs records, chunksOf_sizes hbs records⟩
  rw [insert_records_using_merge]
  rw [tryCatchL_ok (merge_body_ok o projectId datasetId tableId timestamp records batchSize
    sch n hget hcreate hload hq hdel [])]
  rw [← expectedLoadOps_eq_zipWith]
  simp

/-- An oracle whose every call succeeds, for witnessing the success path
(query reports 7 affected rows). -/
def allOkOracle : Oracle Nat Unit where
  getTable := fun _ => Except.ok ()
  createTable := fun _ _ => Except.ok ()
  load := fun _ _ _ => Except.ok ()
  runQuery := fun _ => Except.ok 7
  deleteTable := fun _ => Except.ok ()

/-- Witness for C1: five records with `batch_size = 2` produce exactly one
staging-table creation, three loads (truncate, append, append), one merge,
one drop, and `processed = 5`. -/
theorem claim1_witness :
    insert_records_using_merge allOkOracle "p" "d" "t" "20240101" [10, 11, 12, 13, 14] 2 [] =
      (Op.getTable (tableRef "p" "d" "t") ::
       Op.createTable (tableRef "p" "d" (tempTableIdOf "t" "20240101")) () ::
       (List.zipWith
          (fun c m => Op.load (tableRef "p" "d" (tempTableIdOf "t" "20240101")) c m)
          (chunksOf 2 [10, 11, 12, 13, 14])
          (modesFrom WriteMode.truncate (chunksOf 2 [10, 11, 12, 13, 14]).length) ++
        [Op.query (build_merge_query "p" "d" "t" (tempTableIdOf "t" "20240101")),
         Op.deleteTable (tableRef "p" "d" (tempTableIdOf "t" "20240101"))]),
       Except.ok ⟨5, some 7, "success"⟩) ∧
    (chunksOf 2 [10, 11, 12, 13, 14]).flatten = [10, 11, 12, 13, 14] ∧
    ∀ c ∈ chunksOf 2 [10, 11, 12, 13, 14], c ≠ [] ∧ c.length ≤ 2 :=
  claim1_single_pass_upsert allOkOracle "p" "d" "t" "20240101" [10, 11, 12, 13, 14] 2 () 7
    (by decide) (by decide) rfl rfl (fun c m => rfl) rfl rfl

/-- C2: the merge statement matches staging to target exactly on the
identity-key tuple (account_id, ad_id, date_start); its UPDATE clause sets
every non-key schema column and no key column; its INSERT clause covers
every schema column exactly once. -/
theorem claim2_merge_query_shape :
    mergeOnFields.Perm mergeKeyFields ∧
    (∀ f ∈ insightsFieldNames, (f ∈ mergeUpdateFields ↔ f ∉ mergeKeyFields)) ∧
    (∀ f ∈ mergeUpdateFields, f ∈ insightsFieldNames) ∧
    mergeInsertFields.Perm insightsFieldNames := by
  decide

/-- C5: an empty record list short-circuits `insert_records` to a no-op:
no warehouse operation is appended to the trace, and the result is
`processed = 0` with the no-records status. -/
theorem claim5_empty_upsert {ρ σ : Type} (o : Oracle ρ σ)
    (projectId datasetId tableId timestamp : String) (regSchema : σ)
    (batchSize : Nat) (tr : List (Op ρ σ)) :
    insert_records o projectId datasetId tableId timestamp regSchema [] batchSize tr =
      (tr, Except.ok ⟨0, none, "no_records"⟩) := rfl

/-- C4: if any step of the merge body (target lookup, staging creation,
chunked loading, the merge itself, or the success-path drop) raises, the
loader issues one best-effort staging-table drop — whose own outcome is
swallowed, whatever it is — and propagates the original error. -/
theorem claim4_cleanup_on_failure {ρ σ : Type} (o : Oracle ρ σ)
    (projectId datasetId tableId timestamp : String) (records : List ρ)
    (batchSize : Nat) (tr tr' : List (Op ρ σ)) (e : String)
    (hfail : merge_body o projectId datasetId tableId timestamp records batchSize tr =
      (tr', Except.error e)) :
    insert_records_using_merge o projectId datasetId tableId timestamp records batchSize tr =
      (tr' ++ [Op.deleteTable (tableRef projectId datasetId (tempTableIdOf tableId timestamp))],
       Except.error e) := by
  rw [insert_records_using_merge]
  rw [tryCatchL_err hfail]
  cases hdel : o.deleteTable (tableRef projectId datasetId (tempTableIdOf tableId timestamp)) with
  | ok u =>
    cases u
    rw [bindL_ok (tryCatchL_ok (callOp_run _ _ _))]
    rfl
  | error e2 =>
    have hrun : tryCatchL
        (callOp (Op.deleteTable (tableRef projectId datasetId (tempTableIdOf tableId timestamp)))
          (Except.error e2 : Except String Unit))
        (fun _ => pureL ()) tr' =
        (tr' ++ [Op.deleteTable (tableRef projectId datasetId (tempTableIdOf tableId timestamp))],
         Except.ok ()) := by
      rw [tryCatchL_err (callOp_run _ _ _)]
      rfl
    rw [bindL_ok hrun]
    rfl

/-- An oracle whose staging-table creation fails, for witnessing the
failure path. -/
def createFailOracle : Oracle Nat Unit where
  getTable := fun _ => Except.ok ()
  createTable := fun _ _ => Except.error "boom"
  load := fun _ _ _ => Except.ok ()
  runQuery := fun _ => Except.ok 0
  deleteTable := fun _ => Except.error "drop also failed"

/-- Witness for C4: staging creation fails with `boom` (and even the
cleanup drop itself fails); the trace still ends with the attempted drop
and the original `boom` is what propagates. -/
theorem claim4_witness :
    insert_records_using_merge createFailOracle "p" "d" "t" "20240101" [1, 2] 1 [] =
      ([Op.getTable (tableRef "p" "d" "t"),
        Op.createTable (tableRef "p" "d" (tempTableIdOf "t" "20240101")) (),
        Op.deleteTable (tableRef "p" "d" (tempTableIdOf "t" "20240101"))],
       Except.error "boom") :=
  claim4_cleanup_on_failure createFailOracle "p" "d" "t" "20240101" [1, 2] 1 []
    [Op.getTable (tableRef "p" "d" "t"),
     Op.createTable (tableRef "p" "d" (tempTableIdOf "t" "20240101")) ()] "boom" rfl

/-- A small schema of the shape the validator is run with: an int field, a
repeated-group int field, and a date field (duplicate-free keys, like
every CPython dict). -/
def cSchema : Schema :=
  [("clicks", ⟨FType.fint, true, false⟩),
   ("actions", ⟨FType.fint, true, true⟩),
   ("date_start", ⟨FType.fdate, true, false⟩)]

/-- C3: transformation is all-or-nothing. When `transform_for_bigquery`
returns a record, every schema field in it is fully coerced (a partially
coerced record is impossible), and when the conversion of even a single
element of a repeated-group field fails, the whole record transform
returns `None`. No exception escapes: the function totally returns either
a record or the `None` sentinel by construction of its `Option` result. -/
theorem claim3_transform_all_or_nothing (s : Schema) (r : Record)
    (hnd : (s.map Prod.fst).Nodup) :
    (∀ r', transform_for_bigquery s r = some r' → FullyCoerced s r') ∧
    (∀ f info xs x, (f, info) ∈ s → info.nested = true →
      assocGet r f = some (plist xs) → x ∈ xs → convertActionItem info x = none →
      transform_for_bigquery s r = none) :=
  ⟨fun _ h => transform_fullyCoerced hnd h,
   fun _ _ _ _ hmem hn hv hx hfail => transform_none_of_item_fail hnd hmem hn hv hx hfail⟩

/-- Witness for C3: a successfully transformed record is fully coerced,
and a record whose single action element fails int conversion transforms
to `None`. -/
theorem claim3_witness :
    FullyCoerced cSchema [("clicks", pint 12)] ∧
    transform_for_bigquery cSchema
      [("actions", plist [pdict [("action_type", pstr "x"), ("value", pstr "abc")]])] = none :=
  ⟨(claim3_transform_all_or_nothing cSchema [("clicks", pstr "12")] (by decide)).1
      [("clicks", pint 12)] rfl,
   (claim3_transform_all_or_nothing cSchema
      [("actions", plist [pdict [("action_type", pstr "x"), ("value", pstr "abc")]])]
      (by decide)).2
      "actions" ⟨FType.fint, true, true⟩
      [pdict [("action_type", pstr "x"), ("value", pstr "abc")]]
      (pdict [("action_type", pstr "x"), ("value", pstr "abc")])
      (by simp [cSchema]) rfl rfl (List.mem_cons_self _ _) rfl⟩

/-- C6: an int-typed field given the string value `"12.0"` makes the whole
record transform fail (direct int-of-string conversion rejects
float-formatted strings), while `"12"` is accepted and yields the integer
`12` in the transformed record. -/
theorem claim6_int_of_string_strict (s : Schema) (f : String) (info : FieldInfo)
    (hnd : (s.map Prod.fst).Nodup) (hmem : (f, info) ∈ s)
    (ht : info.type = FType.fint) (hn : info.nested = false) :
    (∀ r : Record, assocGet r f = some (pstr "12.0") →
      transform_for_bigquery s r = none) ∧
    (∀ (r r' : Record), assocGet r f = some (pstr "12") →
      transform_for_bigquery s r = some r' → assocGet r' f = some (pint 12)) :=
  ⟨fun _ hv => transform_none_of_int_fail hnd hmem ht hn hv rfl rfl,
   fun _ _ hv h => transform_int_field_value hnd hmem ht hn hv rfl rfl h⟩

/-- Witness for C6: `"12.0"` discards the record, `"12"` yields `12`. -/
theorem claim6_witness :
    transform_for_bigquery cSchema [("clicks", pstr "12.0")] = none ∧
    assocGet [("clicks", pint 12)] "clicks" = some (pint 12) :=
  ⟨(claim6_int_of_string_strict cSchema "clicks" ⟨FType.fint, true, false⟩
      (by decide) (by simp [cSchema]) rfl rfl).1 [("clicks", pstr "12.0")] rfl,
   (claim6_int_of_string_strict cSchema "clicks" ⟨FType.fint, true, false⟩
      (by decide) (by simp [cSchema]) rfl rfl).2 [("clicks", pstr "12")]
      [("clicks", pint 12)] rfl rfl⟩

/-- A record that validates cleanly but whose transform fails: its single
action element has a string value that int conversion rejects (validation
only checks element structure, not value convertibility). -/
def transformFailRecord : Record :=
  [("actions", plist [pdict [("action_type", pstr "x"), ("value", pstr "abc")]])]

/-- Counterexample to C7 as stated: with `stop_on_first_error = True`, a
first record that is reclassified invalid with `"Transformation failed"`
does NOT stop the scan — the second record is still scanned and lands in
the invalid list, so it is false that all records after the first invalid
one appear in neither list. -/
theorem claim7_counterexample :
    (validate_record cSchema transformFailRecord).1 = true ∧
    validate_batch cSchema true [transformFailRecord, transformFailRecord] =
      ⟨[], [⟨transformFailRecord, ["Transformation failed"]⟩,
            ⟨transformFailRecord, ["Transformation failed"]⟩]⟩ :=
  ⟨rfl, rfl⟩

/-- C7 (amended): `validate_batch` runs validate then transform per record
in order; a record that validates but whose transform comes back falsy is
reclassified as invalid with the single issue `"Transformation failed"`
and the scan continues even when `stop_on_first_error` is set; the scan
stops — leaving all later records out of both lists — only after a record
that fails validation. -/
theorem claim7_stop_on_validation_only (s : Schema) (stop : Bool) (r : Record)
    (rs : List Record) :
    ((validate_record s r).1 = true →
      (transform_for_bigquery s r = none ∨
        ∃ t, transform_for_bigquery s r = some t ∧ t.isEmpty = true) →
      validate_batch s stop (r :: rs) =
        ⟨(validate_batch s stop rs).valid,
         ⟨r, ["Transformation failed"]⟩ :: (validate_batch s stop rs).invalid⟩) ∧
    ((validate_record s r).1 = false →
      validate_batch s true (r :: rs) = ⟨[], [⟨r, (validate_record s r).2⟩]⟩) := by
  constructor
  · intro hval htr
    rcases htr with htr | ⟨t, htr, hemp⟩
    · rw [validate_batch, hval, htr]
      rfl
    · rw [validate_batch, hval, htr]
      simp [hemp]
  · intro hval
    rw [validate_batch, hval]
    rfl

/-- A record failing validation itself (non-integer string in an int
field). -/
def validateFailRecord : Record := [("clicks", pstr "nope")]

/-- Witness for the amended C7: a transform-failure record is reclassified
and the scan continues under `stop_on_first_error`; a validation-failure
record stops the scan, leaving the second record in neither list. -/
theorem claim7_witness :
    validate_batch cSchema true [transformFailRecord, transformFailRecord] =
      ⟨(validate_batch cSchema true [transformFailRecord]).valid,
       ⟨transformFailRecord, ["Transformation failed"]⟩ ::
         (validate_batch cSchema true [transformFailRecord]).invalid⟩ ∧
    validate_batch cSchema true [validateFailRecord, transformFailRecord] =
      ⟨[], [⟨validateFailRecord, (validate_record cSchema validateFailRecord).2⟩]⟩ :=
  ⟨(claim7_stop_on_validation_only cSchema true transformFailRecord [transformFailRecord]).1
      rfl (Or.inl rfl),
   (claim7_stop_on_validation_only cSchema true validateFailRecord [transformFailRecord]).2 rfl⟩

/-- C8: a record that validates with zero issues and transforms
successfully validates with zero issues again after transformation —
the transformer never reintroduces shapes the validator flags. -/
theorem claim8_transform_validates (s : Schema) (r r' : Record)
    (hnd : (s.map Prod.fst).Nodup) (_hv : validate_record s r = (true, []))
    (h : transform_for_bigquery s r = some r') :
    validate_record s r' = (true, []) :=
  validate_record_of_transform hnd h

/-- Witness for C8 on a record exercising an int field, a date field and a
repeated-group field. -/
theorem claim8_witness :
    validate_record cSchema
      [("clicks", pint 12), ("date_start", pstr "2024-01-05"),
       ("actions", plist [pdict [("action_type", pstr "lead"), ("value", pint 3)]])] =
      (true, []) :=
  claim8_transform_validates cSchema
    [("clicks", pstr "12"), ("date_start", pstr "2024-01-05"),
     ("actions", plist [pdict [("action_type", pstr "lead"), ("value", pstr "3")]])]
    [("clicks", pint 12), ("date_start", pstr "2024-01-05"),
     ("actions", plist [pdict [("action_type", pstr "lead"), ("value", pint 3)]])]
    (by decide) rfl rfl

/-- Counterexample to C9 as stated: the cache key is the colon-joined
string `ad_account_id:kpi_name`, so a stored mapping whose account id
itself contains a colon (`"123:Lead"`, KPI `"x"`) is returned for the
query (account `"123"`, KPI `"Lead:x"`) even though no mapping with
`ad_account_id` equal to `"123"` or `"all"` exists — where the claim
requires `None`. -/
theorem claim9_counterexample :
    get_mapping_for_account (load_mappings [⟨"123:Lead", "x", "t"⟩]) "123" "Lead:x" =
      some "t" ∧
    (KPIRow.mk "123:Lead" "x" "t").ad_account_id ≠ "123" ∧
    (KPIRow.mk "123:Lead" "x" "t").ad_account_id ≠ "all" := by
  decide

/-- C9 (amended): provided every stored account id and the queried account
id are colon-free (so that concatenated cache keys cannot collide), the
lookup returns the most recently loaded mapping whose `ad_account_id`
equals the account id and whose `user_friendly_name` equals the KPI name;
failing that, the most recently loaded `"all"` mapping for that KPI name;
failing that, `None`. -/
theorem claim9_mapping_precedence (rows : List KPIRow) (accountId kpiName : String)
    (hacc : noColon accountId = true)
    (hrows : ∀ row ∈ rows, noColon row.ad_account_id = true) :
    get_mapping_for_account (load_mappings rows) accountId kpiName =
      match lastMatch rows accountId kpiName with
      | some row => some row.meta_action_type
      | none =>
        match lastMatch rows "all" kpiName with
        | some row => some row.meta_action_type
        | none => none := by
  rw [get_mapping_for_account, load_mappings_get, lastMatchKey_eq_lastMatch hacc hrows]
  cases lastMatch rows accountId kpiName with
  | some row => rfl
  | none =>
    rw [load_mappings_get, lastMatchKey_eq_lastMatch (by decide) hrows]

/-- Witness for the amended C9: with both an account-specific and a global
mapping for `"Lead"`, the account-specific action type wins. -/
theorem claim9_witness :
    get_mapping_for_account
      (load_mappings [⟨"123", "Lead", "t1"⟩, ⟨"all", "Lead", "t2"⟩]) "123" "Lead" =
      some "t1" :=
  (claim9_mapping_precedence [⟨"123", "Lead", "t1"⟩, ⟨"all", "Lead", "t2"⟩] "123" "Lead"
      (by decide) (by decide)).trans (by decide)

/-- C10: a repeated-group field present with a falsy value (empty list,
`None`, ...) is silently normalized to `None` in the output of a
successful transform, never kept as an empty list. -/
theorem claim10_empty_actions_normalized (s : Schema) (f : String) (info : FieldInfo)
    (r r' : Record) (hnd : (s.map Prod.fst).Nodup) (hmem : (f, info) ∈ s)
    (hn : info.nested = true) (v : PyVal) (hv : assocGet r f = some v)
    (ht : pyTruthy v = false) (h : transform_for_bigquery s r = some r') :
    assocGet r' f = some pnone :=
  transform_falsy_action_field hnd hmem hn hv ht h

/-- Witness for C10: an empty `actions` list comes out as `None`. -/
theorem claim10_witness :
    assocGet [("actions", pnone)] "actions" = some pnone ∧
    transform_for_bigquery cSchema [("actions", plist [])] = some [("actions", pnone)] :=
  ⟨claim10_empty_actions_normalized cSchema "actions" ⟨FType.fint, true, true⟩
      [("actions", plist [])] [("actions", pnone)] (by decide) (by simp [cSchema]) rfl
      (plist []) rfl rfl rfl,
   rfl⟩

end FbToBq
